import Mathlib

/-!
# Verification of the `mysqlconnect` package (GOWebApplication)

Shallow embedding of the multi-connection MySQL registry
(`database/mysqlconnect`): configuration validation, connection-string
resolution (direct DSN, single cluster, HA cluster), pool-parameter
application, and ordered shutdown with aggregated failure reporting.

Conventions of the embedding:
* Go's `os.Getenv` returns `""` for unset variables; the process
  environment is modelled as `String → Option String` so that "unset"
  is distinguishable in statements, and `getenv` collapses `none` to `""`
  exactly as `os.Getenv` does.
* `sql.DB` handles are modelled by the `DB` structure: the connection
  string handed to `sql.Open`, plus the four pool parameters.  A pool
  field is `none` while the handle's built-in default is in effect and
  becomes `some v` when the corresponding setter is invoked (`sql.Open`
  never invokes the setters itself).
* `sql.Open` defers dialing; with the driver registered by this
  repository it returns a handle without error, so `openDSN` is total.
* Go `error` values produced by `Open` are distinguished by construction
  site and modelled by the inductive `OpenError`; `OpenError.message`
  renders the exact Go error strings (`%q` renders as quote-wrapping;
  none of the names involved require escaping).
* `time.Duration` is an `int64` count of nanoseconds, modelled as `Int`
  (with the explicit `2^63` overflow checks of `time.ParseDuration`).
-/

namespace Mysqlconnect

/-- The process environment: `none` models an unset variable. -/
def Env : Type := String → Option String

/-- `os.Getenv`: returns the empty string when the variable is unset. -/
def getenv (env : Env) (key : String) : String := (env key).getD ""

/-- Go `%q` on a string; none of the values this development quotes
contain characters that Go would escape. -/
def goQuote (s : String) : String := "\"" ++ s ++ "\""

/-- Go `strings.ToUpper`: upper-cases every rune of the string (the
cluster/schema names fed to it here are ASCII, where `Char.toUpper`
agrees with Go's Unicode mapping). -/
def toUpper (s : String) : String := String.mk (s.data.map Char.toUpper)

/-- `ConnectionPool` (pool-tuning parameters; every field is a nullable
pointer in Go, `nil` meaning "not configured"). Durations in ns. -/
structure ConnectionPool where
  connMaxLifetime : Option Int
  maxIdleConnections : Option Int
  maxOpenConnections : Option Int
  connMaxIdleTime : Option Int
  deriving Repr, DecidableEq

/-- `Connection`: one declared connection. -/
structure Connection where
  name : String
  isMaster : Bool
  isReadOnly : Bool
  parameters : String
  connectionPool : ConnectionPool
  deriving Repr, DecidableEq

/-- `Config`: the top-level configuration. -/
structure Config where
  dsn : String
  cluster : String
  haCluster : String
  schema : String
  connections : List Connection
  deriving Repr, DecidableEq

/-- A `*sql.DB` handle: the connection string it was opened with and the
four pool parameters.  `none` = the setter was never called, so the
`database/sql` built-in default (e.g. 2 idle connections) is in effect. -/
structure DB where
  dsn : String
  connMaxLifetime : Option Int := none
  maxIdleConns : Option Int := none
  maxOpenConns : Option Int := none
  connMaxIdleTime : Option Int := none
  deriving Repr, DecidableEq

/-- `(*sql.DB).SetConnMaxLifetime`. -/
def DB.setConnMaxLifetime (db : DB) (d : Int) : DB := { db with connMaxLifetime := some d }

/-- `(*sql.DB).SetMaxIdleConns`. -/
def DB.setMaxIdleConns (db : DB) (n : Int) : DB := { db with maxIdleConns := some n }

/-- `(*sql.DB).SetMaxOpenConns`. -/
def DB.setMaxOpenConns (db : DB) (n : Int) : DB := { db with maxOpenConns := some n }

/-- `(*sql.DB).SetConnMaxIdleTime`. -/
def DB.setConnMaxIdleTime (db : DB) (d : Int) : DB := { db with connMaxIdleTime := some d }

/-- The `error` values `Open` can return, distinguished by construction
site in the Go source. -/
inductive OpenError where
  | allEmpty
  | dsnExclusive
  | clusterExclusive
  | dsnSchemaExclusive
  | schemaRequired
  | noConnections
  | duplicateName (name : String)
  | cannotWriteReplica (name : String)
  deriving Repr, DecidableEq

/-- The exact Go error strings. -/
def OpenError.message : OpenError → String
  | .allEmpty => "invalid MySQL config: DSN, Cluster and HACluster are empty"
  | .dsnExclusive => "invalid MySQL config: DSN is mutually exclusive with Cluster and HACluster"
  | .clusterExclusive => "invalid MySQL config: Cluster is mutually exclusive with HACluster"
  | .dsnSchemaExclusive => "invalid MySQL config: DSN is mutually exclusive with Schema since the schema is already defined in the DSN"
  | .schemaRequired => "invalid MySQL config: when DSN is empty the Schema must be defined"
  | .noConnections => "invalid MySQL config: no connections defined"
  | .duplicateName name => "invalid MySQL config: duplicated connection name " ++ goQuote name
  | .cannotWriteReplica name => "invalid MySQL config: cannot write to a replica: connection " ++ goQuote name

/-- `openDSN`: `sql.Open(driver, dsn)` defers dialing and, with the
repository's registered driver, returns a handle without error. -/
def openDSN (dsn : String) : Except OpenError DB := .ok { dsn := dsn }

/-- `openMySQL`: single-cluster connection-string resolution. -/
def openMySQL (env : Env) (cluster schema : String) (config : Connection) : Except OpenError DB :=
  let clusterInUpperCase := toUpper cluster
  let schemaInUpperCase := toUpper schema
  let host :=
    if config.isMaster then
      getenv env ("DB_MYSQL_" ++ clusterInUpperCase ++ "_" ++ schemaInUpperCase ++ "_" ++
        schemaInUpperCase ++ "_ENDPOINT")
    else
      getenv env ("DB_MYSQL_" ++ clusterInUpperCase ++ "_" ++ schemaInUpperCase ++ "_" ++
        schemaInUpperCase ++ "_LOCAL_REPLICA_ENDPOINT")
  let username :=
    if config.isReadOnly then schema ++ "_RPROD" else schema ++ "_WPROD"
  let password :=
    if config.isReadOnly then
      getenv env ("DB_MYSQL_" ++ clusterInUpperCase ++ "_" ++ schemaInUpperCase ++ "_" ++
        schemaInUpperCase ++ "_RPROD")
    else
      getenv env ("DB_MYSQL_" ++ clusterInUpperCase ++ "_" ++ schemaInUpperCase ++ "_" ++
        schemaInUpperCase ++ "_WPROD")
  -- dsn has the following format: "username:password@tcp(host:port)/schema?parameters"
  let dsn := username ++ ":" ++ password ++ "@tcp(" ++ host ++ ")/" ++ schema
  let dsn := if config.parameters ≠ "" then dsn ++ "?" ++ config.parameters else dsn
  openDSN dsn

/-- `openMySQLHA`: HA-cluster connection-string resolution. -/
def openMySQLHA (env : Env) (cluster schema : String) (config : Connection) : Except OpenError DB :=
  let clusterInUpperCase := toUpper cluster
  let schemaInUpperCase := toUpper schema
  let host :=
    if config.isMaster then
      getenv env ("DB_HA_MYSQL_" ++ clusterInUpperCase ++ "_" ++ schemaInUpperCase ++ "_" ++
        schemaInUpperCase ++ "_WR_ENDPOINT")
    else
      getenv env ("DB_HA_MYSQL_" ++ clusterInUpperCase ++ "_" ++ schemaInUpperCase ++ "_" ++
        schemaInUpperCase ++ "_RO_ENDPOINT")
  let username :=
    if config.isReadOnly then schema ++ "_RPROD" else schema ++ "_WPROD"
  let password :=
    if config.isReadOnly then
      getenv env ("DB_HA_MYSQL_" ++ clusterInUpperCase ++ "_" ++ schemaInUpperCase ++ "_" ++
        schemaInUpperCase ++ "_RPROD")
    else
      getenv env ("DB_HA_MYSQL_" ++ clusterInUpperCase ++ "_" ++ schemaInUpperCase ++ "_" ++
        schemaInUpperCase ++ "_WPROD")
  -- dsn has the following format: "username:password@tcp(host:port)/schema?parameters"
  let dsn := username ++ ":" ++ password ++ "@tcp(" ++ host ++ ")/" ++ schema
  let dsn := if config.parameters ≠ "" then dsn ++ "?" ++ config.parameters else dsn
  openDSN dsn

/-- `validateDuplicateNames`, with the `map[string]struct{}` of already
seen names modelled as the list of names visited so far. -/
def validateDuplicateNamesAux : List Connection → List String → Option OpenError
  | [], _ => none
  | connection :: rest, seen =>
    if connection.name ∈ seen then some (.duplicateName connection.name)
    else validateDuplicateNamesAux rest (connection.name :: seen)

/-- `validateDuplicateNames` validates that there are no duplicated
connection names. -/
def validateDuplicateNames (connections : List Connection) : Option OpenError :=
  validateDuplicateNamesAux connections []

/-- The configuration checks `Open` performs before its connection loop,
in source order (the first failing check's error is returned). -/
def validate (config : Config) : Option OpenError :=
  if config.dsn = "" ∧ config.cluster = "" ∧ config.haCluster = "" then
    some .allEmpty
  else if config.dsn ≠ "" ∧ (config.cluster ≠ "" ∨ config.haCluster ≠ "") then
    some .dsnExclusive
  else if config.cluster ≠ "" ∧ config.haCluster ≠ "" then
    some .clusterExclusive
  else if config.dsn ≠ "" ∧ config.schema ≠ "" then
    some .dsnSchemaExclusive
  else if config.dsn = "" ∧ config.schema = "" then
    some .schemaRequired
  else if config.connections.length = 0 then
    some .noConnections
  else
    validateDuplicateNames config.connections

/-- The pool-parameter application step of `Open`'s loop: each of the
four setters is invoked only when the corresponding field is non-nil. -/
def applyPool (connectionConfig : Connection) (db : DB) : DB :=
  let db :=
    match connectionConfig.connectionPool.connMaxLifetime with
    | some v => db.setConnMaxLifetime v
    | none => db
  let db :=
    match connectionConfig.connectionPool.maxIdleConnections with
    | some v => db.setMaxIdleConns v
    | none => db
  let db :=
    match connectionConfig.connectionPool.maxOpenConnections with
    | some v => db.setMaxOpenConns v
    | none => db
  match connectionConfig.connectionPool.connMaxIdleTime with
  | some v => db.setConnMaxIdleTime v
  | none => db

/-- `Open`'s per-connection loop.  `dbs` is the registry being built
(the Go `map[string]*sql.DB`, modelled as an association list — names
are unique once `validateDuplicateNames` has passed).  The second
component of the result records the connection string of every handle
actually opened during the run (instrumentation for stating that no —
or some — handle was opened before a failure; it does not alter the
computation). -/
def openLoop (env : Env) (config : Config) :
    List Connection → List (String × DB) → List String →
    Except OpenError (List (String × DB)) × List String
  | [], dbs, opened => (.ok dbs, opened)
  | connectionConfig :: rest, dbs, opened =>
    if config.dsn = "" ∧ (¬connectionConfig.isMaster ∧ ¬connectionConfig.isReadOnly) then
      (.error (.cannotWriteReplica connectionConfig.name), opened)
    else
      let res : Except OpenError DB :=
        if config.dsn ≠ "" then openDSN config.dsn
        else if config.cluster ≠ "" then openMySQL env config.cluster config.schema connectionConfig
        else if config.haCluster ≠ "" then openMySQLHA env config.haCluster config.schema connectionConfig
        else
          -- unreachable after `validate`: in Go `db` would stay nil and
          -- the subsequent pool-setter calls would dereference nil
          .error .allEmpty
      match res with
      | .error e => (.error e, opened)
      | .ok db =>
        let db := applyPool connectionConfig db
        (openLoop env config rest (dbs ++ [(connectionConfig.name, db)]) (opened ++ [db.dsn]))

/-- `Open` together with the instrumentation trace of opened handles. -/
def openRun (env : Env) (config : Config) :
    Except OpenError (List (String × DB)) × List String :=
  match validate config with
  | some e => (.error e, [])
  | none => openLoop env config config.connections [] []

/-- `Open`: validates the configuration, then opens one handle per
declared connection and registers it under the connection's name. -/
def Open (env : Env) (config : Config) : Except OpenError (List (String × DB)) :=
  (openRun env config).1

/-- The connection strings of the handles opened during a run of `Open`
(in opening order); empty when validation fails up front. -/
def openedDSNs (env : Env) (config : Config) : List String :=
  (openRun env config).2

/-- Equality of `Except` results is decidable (used to evaluate `Open`
on concrete configurations). -/
instance instDecEqExcept {e a : Type} [DecidableEq e] [DecidableEq a] :
    DecidableEq (Except e a) := fun x y =>
  match x, y with
  | .ok u, .ok v =>
    if h : u = v then .isTrue (by rw [h]) else .isFalse (fun hc => h (Except.ok.inj hc))
  | .error u, .error v =>
    if h : u = v then .isTrue (by rw [h]) else .isFalse (fun hc => h (Except.error.inj hc))
  | .ok _, .error _ => .isFalse (fun hc => Except.noConfusion hc)
  | .error _, .ok _ => .isFalse (fun hc => Except.noConfusion hc)

/-! ## The registry (`connections` struct) and `Close` -/

/-- The `connections` struct: the Go `map[string]*sql.DB`, modelled as an
association list (its keys are unique by construction in `Open`). -/
structure connections where
  dbs : List (String × DB)
  deriving Repr, DecidableEq

/-- Map lookup `c.dbs[name]`. -/
def lookupDB (dbs : List (String × DB)) (name : String) : Option DB :=
  (dbs.find? (fun p => p.1 == name)).map Prod.snd

/-- Lexicographic comparison of character lists by code point.  Go's
`sort.Strings` compares strings byte-wise; UTF-8 byte order coincides
with code-point order, so this is the same ordering. -/
def lexLe : List Char → List Char → Bool
  | [], _ => true
  | _ :: _, [] => false
  | a :: as, b :: bs => if a < b then true else if b < a then false else lexLe as bs

/-- String comparison underlying `sort.Strings`. -/
def strLe (a b : String) : Bool := lexLe a.data b.data

/-- `sort.Strings`: ascending lexicographic sort (any correct sort
computes the same list; the sorted permutation is unique). -/
def sortStrings (l : List String) : List String :=
  l.insertionSort (fun a b => strLe a b = true)

/-- `Close`: closes every handle in ascending name order, collecting the
failures.  `closeFn` gives the result of `(*sql.DB).Close` on each
handle (`none` = closed cleanly, `some msg` = the error's text).  The
`lookupDB … = none` branch is unreachable: the names iterated are
exactly the registry's keys. -/
def connections.Close (closeFn : DB → Option String) (c : connections) : Option String :=
  let names := sortStrings (c.dbs.map Prod.fst)
  let errs := names.foldl (fun errs name =>
    match lookupDB c.dbs name with
    | some db =>
      match closeFn db with
      | some err => errs ++ [name ++ ": " ++ err]
      | none => errs
    | none => errs) []
  if errs.length > 0 then
    some ("failed to close connections: " ++ String.intercalate ", " errs)
  else
    none

/-- Spec-side description of `Close`'s failure list (§4.3): every close
failure, rendered `"name: underlying-error"`, in ascending lexicographic
order of connection name. -/
def closeFailures (closeFn : DB → Option String) (c : connections) : List String :=
  (sortStrings (c.dbs.map Prod.fst)).filterMap fun name =>
    match lookupDB c.dbs name with
    | some db => (closeFn db).map fun e => name ++ ": " ++ e
    | none => none

/-! ## The five configuration invariants of spec §3 (spec-side) -/

/-- A cluster topology mode is in use. -/
def clusterMode (c : Config) : Prop := c.cluster ≠ "" ∨ c.haCluster ≠ ""

instance : Decidable (clusterMode c) := by unfold clusterMode; infer_instance

/-- Invariant 1: exactly one of {direct DSN, singleCluster name,
haCluster name} is set. -/
def invariant1 (c : Config) : Prop :=
  (c.dsn ≠ "" ∧ c.cluster = "" ∧ c.haCluster = "") ∨
  (c.dsn = "" ∧ c.cluster ≠ "" ∧ c.haCluster = "") ∨
  (c.dsn = "" ∧ c.cluster = "" ∧ c.haCluster ≠ "")

instance : Decidable (invariant1 c) := by unfold invariant1; infer_instance

/-- Invariant 2: the schema is set if and only if a cluster mode is used. -/
def invariant2 (c : Config) : Prop := c.schema ≠ "" ↔ clusterMode c

instance : Decidable (invariant2 c) := by unfold invariant2; infer_instance

/-- Invariant 3: the connection list is non-empty. -/
def invariant3 (c : Config) : Prop := c.connections ≠ []

instance : Decidable (invariant3 c) := by unfold invariant3; infer_instance

/-- Invariant 4: all connection names are unique. -/
def invariant4 (c : Config) : Prop := (c.connections.map Connection.name).Nodup

instance : Decidable (invariant4 c) := by unfold invariant4; infer_instance

/-- Invariant 5: in cluster modes, every spec is a master or read-only
connection. -/
def invariant5 (c : Config) : Prop :=
  clusterMode c → ∀ conn ∈ c.connections, conn.isMaster = true ∨ conn.isReadOnly = true

instance : Decidable (invariant5 c) := by unfold invariant5; infer_instance

/-- The first violated invariant, in the fixed priority order of §3. -/
def firstViolation (c : Config) : Option Nat :=
  if ¬ invariant1 c then some 1
  else if ¬ invariant2 c then some 2
  else if ¬ invariant3 c then some 3
  else if ¬ invariant4 c then some 4
  else if ¬ invariant5 c then some 5
  else none

/-- How many of the five invariants the configuration violates. -/
def numViolations (c : Config) : Nat :=
  (if invariant1 c then 0 else 1) + (if invariant2 c then 0 else 1) +
  (if invariant3 c then 0 else 1) + (if invariant4 c then 0 else 1) +
  (if invariant5 c then 0 else 1)

/-- Which invariant of §3 each `Open` error identifies. -/
def invariantOf : OpenError → Nat
  | .allEmpty => 1
  | .dsnExclusive => 1
  | .clusterExclusive => 1
  | .dsnSchemaExclusive => 2
  | .schemaRequired => 2
  | .noConnections => 3
  | .duplicateName _ => 4
  | .cannotWriteReplica _ => 5

/-! ## Spec-side connection-string formulas (§4.2, §6) -/

/-- The single-cluster connection string as the spec's words prescribe
it: host from `DB_MYSQL_{CLUSTER}_{SCHEMA}_{SCHEMA}_ENDPOINT` (master)
or `…_LOCAL_REPLICA_ENDPOINT` (replica), username `{schema}_RPROD` /
`{schema}_WPROD` by read-only role, password from the parallel
`…_RPROD` / `…_WPROD` variable, composed as
`username:password@tcp(host)/schema[?extraParameters]`. -/
def specSingleClusterDSN (env : Env) (cluster schema : String) (conn : Connection) : String :=
  let varBase := "DB_MYSQL_" ++ toUpper cluster ++ "_" ++ toUpper schema ++ "_" ++ toUpper schema
  let host :=
    getenv env (if conn.isMaster then varBase ++ "_ENDPOINT"
                else varBase ++ "_LOCAL_REPLICA_ENDPOINT")
  let username := if conn.isReadOnly then schema ++ "_RPROD" else schema ++ "_WPROD"
  let password :=
    getenv env (if conn.isReadOnly then varBase ++ "_RPROD" else varBase ++ "_WPROD")
  let base := username ++ ":" ++ password ++ "@tcp(" ++ host ++ ")/" ++ schema
  if conn.parameters ≠ "" then base ++ "?" ++ conn.parameters else base

/-- The HA-cluster connection string as the spec's words prescribe it:
host from `DB_HA_MYSQL_{CLUSTER}_{SCHEMA}_{SCHEMA}_WR_ENDPOINT` (master)
or `…_RO_ENDPOINT` (otherwise), credentials analogous to single-cluster
mode with the `DB_HA_MYSQL` prefix. -/
def specHAClusterDSN (env : Env) (cluster schema : String) (conn : Connection) : String :=
  let varBase := "DB_HA_MYSQL_" ++ toUpper cluster ++ "_" ++ toUpper schema ++ "_" ++ toUpper schema
  let host :=
    getenv env (if conn.isMaster then varBase ++ "_WR_ENDPOINT"
                else varBase ++ "_RO_ENDPOINT")
  let username := if conn.isReadOnly then schema ++ "_RPROD" else schema ++ "_WPROD"
  let password :=
    getenv env (if conn.isReadOnly then varBase ++ "_RPROD" else varBase ++ "_WPROD")
  let base := username ++ ":" ++ password ++ "@tcp(" ++ host ++ ")/" ++ schema
  if conn.parameters ≠ "" then base ++ "?" ++ conn.parameters else base

/-- The connection string `Open`'s loop resolves for a spec, by mode
(assuming one mode is set; used to characterize successful runs). -/
def resolveDSN (env : Env) (config : Config) (conn : Connection) : String :=
  if config.dsn ≠ "" then config.dsn
  else if config.cluster ≠ "" then specSingleClusterDSN env config.cluster config.schema conn
  else specHAClusterDSN env config.haCluster config.schema conn

/-- The handle `Open`'s loop registers for a spec on a successful run:
the resolved connection string, with exactly the configured pool
settings applied. -/
def resolvedDB (env : Env) (config : Config) (conn : Connection) : DB :=
  { dsn := resolveDSN env config conn,
    connMaxLifetime := conn.connectionPool.connMaxLifetime,
    maxIdleConns := conn.connectionPool.maxIdleConnections,
    maxOpenConns := conn.connectionPool.maxOpenConnections,
    connMaxIdleTime := conn.connectionPool.connMaxIdleTime }

/-! ## `Duration`: `time.ParseDuration` and `time.Duration.String`

The `Duration` configuration type wraps `time.Duration` (an `int64`
nanosecond count, here `Int`).  `UnmarshalJSON` feeds the JSON string
through `time.ParseDuration`; `MarshalJSON` renders it with
`time.Duration.String`.  Both stdlib algorithms are reproduced below.
-/

/-- `time`'s `unitMap`: nanosecond multiplier of each unit suffix. -/
def unitMap : String → Option Nat
  | "ns" => some 1
  | "us" => some 1000
  | "µs" => some 1000
  | "μs" => some 1000
  | "ms" => some 1000000
  | "s" => some 1000000000
  | "m" => some 60000000000
  | "h" => some 3600000000000
  | _ => none

/-- `time`'s `leadingInt`: consumes leading decimal digits into `x`,
failing on `uint64`-range overflow exactly as the Go code checks it. -/
def leadingInt : List Char → Nat → Option (Nat × List Char)
  | [], x => some (x, [])
  | c :: rest, x =>
    if ¬ c.isDigit then some (x, c :: rest)
    else if x > 2 ^ 63 / 10 then none
    else if x * 10 + (c.toNat - 48) > 2 ^ 63 then none
    else leadingInt rest (x * 10 + (c.toNat - 48))

/-- `time`'s `leadingFraction`: consumes fraction digits after the
decimal point, ignoring digits beyond `uint64` precision.  Returns
(digits value, scale = 10^consumed-digits, remaining input). -/
def leadingFraction : List Char → Nat → Nat → Bool → Nat × Nat × List Char
  | [], x, scale, _ => (x, scale, [])
  | c :: rest, x, scale, overflow =>
    if ¬ c.isDigit then (x, scale, c :: rest)
    else if overflow then leadingFraction rest x scale overflow
    else if x > (2 ^ 63 - 1) / 10 then leadingFraction rest x scale true
    else
      let y := x * 10 + (c.toNat - 48)
      if y > 2 ^ 63 then leadingFraction rest x scale true
      else leadingFraction rest y (scale * 10) overflow

/-- A character at which a unit ends (the start of the next number). -/
def isDigitOrDot (c : Char) : Bool := c == '.' || c.isDigit

/-- The accumulation loop of `time.ParseDuration`: one iteration per
`number[.fraction]unit` group.  Fuel is the remaining input length plus
one; every iteration consumes at least one character, so fuel never runs
out on inputs the Go loop terminates on.  Go computes the fractional
contribution as `uint64(float64(f) * (float64(unit)/scale))`; since
`f < scale` and `scale` divides every unit with as many fraction digits
as the formatter emits, the exact integer `(f*unit)/scale` used here
agrees with the float computation on all inputs this development
evaluates. -/
def parseDurationLoop : Nat → List Char → Nat → Option Nat
  | 0, _, _ => none
  | fuel + 1, s, d =>
    match s with
    | [] => some d
    | c0 :: _ =>
      -- the next character must be [0-9.]
      if ¬ isDigitOrDot c0 then none
      else
        match leadingInt s 0 with
        | none => none
        | some (v, s1) =>
          let pre : Bool := s.length != s1.length
          -- consume (\.[0-9]*)? — Go: if s != "" && s[0] == '.'
          let fres : Nat × Nat × List Char × Bool :=
            match s1 with
            | c :: s1tail =>
              if c = '.' then
                let lf := leadingFraction s1tail 0 1 false
                (lf.1, lf.2.1, lf.2.2, s1tail.length != lf.2.2.length)
              else (0, 1, s1, false)
            | [] => (0, 1, s1, false)
          let f := fres.1
          let scale := fres.2.1
          let s2 := fres.2.2.1
          let post := fres.2.2.2
          if pre = false ∧ post = false then none
          else
            let unitChars := s2.takeWhile (fun c => ¬ isDigitOrDot c)
            if unitChars.length = 0 then none
            else
              match unitMap (String.mk unitChars) with
              | none => none
              | some unit =>
                if v > 2 ^ 63 / unit then none
                else
                  let v1 := v * unit
                  let v2 := if f > 0 then v1 + (f * unit) / scale else v1
                  if f > 0 ∧ v2 > 2 ^ 63 then none
                  else
                    let d2 := d + v2
                    if d2 > 2 ^ 63 then none
                    else parseDurationLoop fuel (s2.drop unitChars.length) d2

/-- The optional leading sign consumed by `time.ParseDuration`
(`neg := c == '-'` with the sign character stripped). -/
def durSign (s0 : List Char) : Bool × List Char :=
  match s0 with
  | '-' :: rest => (true, rest)
  | '+' :: rest => (false, rest)
  | _ => (false, s0)

/-- `time.ParseDuration` (`none` = the Go function returns an error). -/
def parseDuration (str : String) : Option Int :=
  let s0 := str.data
  -- consume [-+]?
  let signed := durSign s0
  let neg := signed.1
  let s := signed.2
  -- special case: if all that is left is "0", this is zero
  if s = ['0'] then some 0
  else if s = [] then none
  else
    match parseDurationLoop (s.length + 1) s 0 with
    | none => none
    | some d =>
      if neg then some (-(d : Int))
      else if d > 2 ^ 63 - 1 then none
      else some (d : Int)

/-- The digit-printing loop of `time`'s `fmtInt` (least significant
digit first, prepending); fuel bounds the digit count. -/
def fmtIntAux : Nat → Nat → List Char → List Char
  | 0, _, acc => acc
  | fuel + 1, v, acc =>
    if v = 0 then acc
    else fmtIntAux fuel (v / 10) (Char.ofNat (48 + v % 10) :: acc)

/-- `time`'s `fmtInt`: decimal digits of `v`, `"0"` for zero (as the
characters it appends to the output buffer). -/
def fmtIntChars (v : Nat) : List Char :=
  if v = 0 then ['0'] else fmtIntAux (v + 1) v []

/-- The loop of `time`'s `fmtFrac`: prints the `prec` low decimal digits
of `v` (least significant first, prepending), omitting trailing zeros,
and a leading `'.'` if any digit was printed. -/
def fmtFracAux : Nat → Nat → Bool → List Char → List Char × Nat
  | 0, v, printing, acc => (if printing then '.' :: acc else acc, v)
  | prec + 1, v, printing, acc =>
    let digit := v % 10
    let printing2 := printing || digit != 0
    let acc2 := if printing2 then Char.ofNat (48 + digit) :: acc else acc
    fmtFracAux prec (v / 10) printing2 acc2

/-- `time`'s `fmtFrac`: the fraction characters (with `'.'`, trailing
zeros trimmed, empty if the fraction is zero) and `v / 10^prec`. -/
def fmtFrac (v : Nat) (prec : Nat) : List Char × Nat := fmtFracAux prec v false []

/-- The unsigned part of the buffer `time.Duration.format` writes:
`"0s"` for zero; sub-second durations in `ns`/`µs`/`ms` with the
fractional part trimmed; otherwise seconds with up to 9 fraction
digits, then minutes and hours as needed. -/
def durationBodyChars (u : Nat) : List Char :=
  if u < 1000000000 then
    -- smaller than a second: pick ns / µs / ms
    if u = 0 then ['0', 's']
    else if u < 1000 then
      fmtIntChars u ++ ['n', 's']
    else if u < 1000000 then
      let fr := fmtFrac u 3
      fmtIntChars fr.2 ++ fr.1 ++ ['µ', 's']
    else
      let fr := fmtFrac u 6
      fmtIntChars fr.2 ++ fr.1 ++ ['m', 's']
  else
    let fr := fmtFrac u 9
    let secPart := fmtIntChars (fr.2 % 60) ++ fr.1 ++ ['s']
    let u3 := fr.2 / 60
    if u3 = 0 then secPart
    else
      let minPart := fmtIntChars (u3 % 60) ++ ['m'] ++ secPart
      let u4 := u3 / 60
      if u4 = 0 then minPart
      else fmtIntChars u4 ++ ['h'] ++ minPart

/-- The characters `time.Duration.String` produces: the unsigned body,
`'-'`-prefixed for negative durations. -/
def durationChars (d : Int) : List Char :=
  if d < 0 then '-' :: durationBodyChars d.natAbs else durationBodyChars d.natAbs

/-- `time.Duration.String`. -/
def durationString (d : Int) : String := String.mk (durationChars d)

/-- JSON rendering of a string value.  `encoding/json` escapes nothing
in the strings `Duration.String` produces. -/
def jsonQuote (s : String) : String := "\"" ++ s ++ "\""

/-- `Duration.MarshalJSON`: `json.Marshal(time.Duration(d).String())`. -/
def durationMarshalJSON (d : Int) : String := jsonQuote (durationString d)

/-- `json.Unmarshal` of a JSON text into a `string` variable, for texts
without escape sequences (duration strings never contain any). -/
def jsonUnquote (s : String) : Option String :=
  match s.data with
  | '"' :: rest =>
    match rest.getLast? with
    | some '"' =>
      let mid := rest.dropLast
      if mid.all (fun c => c != '"' && c != '\\') then some (String.mk mid) else none
    | _ => none
  | _ => none

/-- `Duration.UnmarshalJSON`: unmarshal the JSON string, then
`time.ParseDuration`; a parse failure yields the error
`invalid duration: %q`. -/
def durationUnmarshalJSON (input : String) : Except String Int :=
  match jsonUnquote input with
  | none => .error "json unmarshal error"
  | some s =>
    match parseDuration s with
    | none => .error ("invalid duration: " ++ goQuote s)
    | some d => .ok d

/-! ## Concrete configurations (drawn from the package's test suite) -/

/-- The environment with every variable unset. -/
def emptyEnv : Env := fun _ => none

/-- A `connection_pool` with no field configured. -/
def noPool : ConnectionPool :=
  { connMaxLifetime := none, maxIdleConnections := none,
    maxOpenConnections := none, connMaxIdleTime := none }

/-- The query parameters used throughout the test suite. -/
def testParams : String :=
  "timeout=100ms&readTimeout=100ms&writeTimeout=100ms&parseTime=true"

/-- Environment of the single-cluster master test case. -/
def envC1 : Env := fun k =>
  if k = "DB_MYSQL_DESAENV08_BAR_BAR_ENDPOINT" then some "localhost:3306"
  else if k = "DB_MYSQL_DESAENV08_BAR_BAR_WPROD" then some "password" else none

/-- Single-cluster master configuration (test case
"fury mysql master with read/write permissions"). -/
def cfgC1 : Config :=
  { dsn := "", cluster := "desaenv08", haCluster := "", schema := "bar",
    connections := [{ name := "foo", isMaster := true, isReadOnly := false,
                      parameters := testParams, connectionPool := noPool }] }

/-- Environment of the HA-cluster read-only test case. -/
def envC5 : Env := fun k =>
  if k = "DB_HA_MYSQL_DESAENV08_BAR_BAR_RO_ENDPOINT" then some "localhost:3306"
  else if k = "DB_HA_MYSQL_DESAENV08_BAR_BAR_RPROD" then some "password" else none

/-- HA-cluster replica read-only configuration (test case
"fury mysql ha master with read only permissions"). -/
def cfgC5 : Config :=
  { dsn := "", cluster := "", haCluster := "desaenv08", schema := "bar",
    connections := [{ name := "foo", isMaster := false, isReadOnly := true,
                      parameters := testParams, connectionPool := noPool }] }

/-- A handle as opened in the close-failure test. -/
def dbClose : DB := { dsn := "root:password@tcp(localhost:3306)/close_with_error" }

/-- A registry with handles named foo, bar, baz (insertion order). -/
def regFooBarBaz : connections :=
  { dbs := [("foo", dbClose), ("bar", dbClose), ("baz", dbClose)] }

/-- Close outcome of every handle in the close-failure test. -/
def closeAllFail : DB → Option String := fun _ => some "driver: bad connection"

/-- A configuration violating invariants 1 (DSN and cluster both set),
2 (cluster mode without schema) and 3 (no connections). -/
def cfgMultiViolation : Config :=
  { dsn := "x", cluster := "y", haCluster := "", schema := "", connections := [] }

/-- A cluster-mode configuration whose second spec violates invariant 5
(neither master nor read-only) while the first spec is valid. -/
def cfgLateReplica : Config :=
  { dsn := "", cluster := "desaenv08", haCluster := "", schema := "bar",
    connections :=
      [{ name := "a", isMaster := true, isReadOnly := false,
         parameters := "", connectionPool := noPool },
       { name := "b", isMaster := false, isReadOnly := false,
         parameters := "", connectionPool := noPool }] }

/-- A cluster-mode configuration with a duplicated connection name. -/
def cfgDupName : Config :=
  { dsn := "", cluster := "desaenv08", haCluster := "", schema := "bar",
    connections :=
      [{ name := "foo", isMaster := true, isReadOnly := false,
         parameters := "", connectionPool := noPool },
       { name := "foo", isMaster := true, isReadOnly := true,
         parameters := "", connectionPool := noPool }] }

/-- A direct-DSN configuration whose spec carries `parameters` and has
both role flags false (test case "use DSN, parameters are ignored"). -/
def cfgDirect : Config :=
  { dsn := "root:password@tcp(localhost:3306)/foo", cluster := "", haCluster := "",
    schema := "",
    connections := [{ name := "foo", isMaster := false, isReadOnly := false,
                      parameters := testParams, connectionPool := noPool }] }

/-- The handle `Open` builds for `cfgDirect`. -/
def dbDirect : DB := { dsn := "root:password@tcp(localhost:3306)/foo" }

/-- A direct-DSN configuration with duplicated names (so that `Open`
fails, with an error unrelated to replica-write). -/
def cfgDirectDup : Config :=
  { dsn := "root:password@tcp(localhost:3306)/foo", cluster := "", haCluster := "",
    schema := "",
    connections := [{ name := "x", isMaster := false, isReadOnly := false,
                      parameters := "", connectionPool := noPool },
                    { name := "x", isMaster := false, isReadOnly := false,
                      parameters := "", connectionPool := noPool }] }

/-- A single-cluster master configuration with no parameters, used with
`emptyEnv` to exercise unset endpoint/password variables. -/
def cfgMissingEnv : Config :=
  { dsn := "", cluster := "desaenv08", haCluster := "", schema := "bar",
    connections := [{ name := "foo", isMaster := true, isReadOnly := false,
                      parameters := "", connectionPool := noPool }] }

/-- A direct-DSN configuration whose spec sets only two of the four pool
parameters. -/
def cfgPool : Config :=
  { dsn := "root:password@tcp(localhost:3306)/foo", cluster := "", haCluster := "",
    schema := "",
    connections := [{ name := "foo", isMaster := false, isReadOnly := false,
                      parameters := "",
                      connectionPool := { connMaxLifetime := some 600000000000,
                                          maxIdleConnections := none,
                                          maxOpenConnections := some 101,
                                          connMaxIdleTime := none } }] }

/-- The handle `Open` builds for `cfgPool`: the two configured settings
applied, the two absent ones left at the built-in default. -/
def dbPool : DB :=
  { dsn := "root:password@tcp(localhost:3306)/foo",
    connMaxLifetime := some 600000000000, maxIdleConns := none,
    maxOpenConns := some 101, connMaxIdleTime := none }

/-! ## Decimal-notation helpers (verification side)

Characterizations of the digit sequences exchanged between
`time.ParseDuration` and `time.Duration.String`, used to prove that
formatting a parsed duration yields a string that re-parses to the same
value. -/

/-- The numeric value of a digit string appended to the accumulator `x`
(the quantity both `leadingInt` and `leadingFraction` compute). -/
def digitsValAux (x : Nat) (ds : List Char) : Nat :=
  ds.foldl (fun a c => a * 10 + (c.toNat - 48)) x

/-- All characters are decimal digits. -/
def allDigits (ds : List Char) : Prop := ∀ c ∈ ds, c.isDigit = true

/-- The decimal digits of `v`, most significant first (`[]` for 0). -/
def digitsOf (v : Nat) : List Char :=
  if h : v = 0 then []
  else
    have : v / 10 < v := Nat.div_lt_self (Nat.pos_of_ne_zero h) (by norm_num)
    digitsOf (v / 10) ++ [Char.ofNat (48 + v % 10)]

/-- The low `prec` decimal digits of `m`, zero-padded to width `prec`,
most significant first. -/
def padDigits : Nat → Nat → List Char
  | 0, _ => []
  | p + 1, m => padDigits p (m / 10) ++ [Char.ofNat (48 + m % 10)]

/-- Trailing `'0'` characters removed (what `fmtFrac`'s trimming keeps). -/
def trimZeros (ds : List Char) : List Char :=
  (ds.reverse.dropWhile (fun c => c == '0')).reverse

/-- Well-formed fraction block of a formatted duration: either absent,
or a dot followed by a non-empty digit string of value `fval` with
`scale = 10^digits`. -/
def FracOk (fds : List Char) (fval scale : Nat) : Prop :=
  (fds = [] ∧ fval = 0 ∧ scale = 1) ∨
  (∃ ft, fds = '.' :: ft ∧ ft ≠ [] ∧ allDigits ft ∧
    digitsValAux 0 ft = fval ∧ scale = 10 ^ ft.length ∧ fval ≤ 10 ^ 9)

/-! ## Helper lemmas -/

/-- `openMySQL` always succeeds and composes exactly the spec-side
single-cluster connection string. -/
theorem openMySQL_eq (env : Env) (cluster schema : String) (conn : Connection) :
    openMySQL env cluster schema conn =
      .ok { dsn := specSingleClusterDSN env cluster schema conn } := by
  unfold openMySQL specSingleClusterDSN openDSN
  cases hm : conn.isMaster <;> cases hr : conn.isReadOnly <;> simp [hm, hr]

/-- `openMySQLHA` always succeeds and composes exactly the spec-side
HA-cluster connection string. -/
theorem openMySQLHA_eq (env : Env) (cluster schema : String) (conn : Connection) :
    openMySQLHA env cluster schema conn =
      .ok { dsn := specHAClusterDSN env cluster schema conn } := by
  unfold openMySQLHA specHAClusterDSN openDSN
  cases hm : conn.isMaster <;> cases hr : conn.isReadOnly <;> simp [hm, hr]

/-- Applying pool settings to a freshly opened handle sets exactly the
configured fields. -/
theorem applyPool_fresh (conn : Connection) (d : String) :
    applyPool conn { dsn := d } =
      { dsn := d,
        connMaxLifetime := conn.connectionPool.connMaxLifetime,
        maxIdleConns := conn.connectionPool.maxIdleConnections,
        maxOpenConns := conn.connectionPool.maxOpenConnections,
        connMaxIdleTime := conn.connectionPool.connMaxIdleTime } := by
  unfold applyPool DB.setConnMaxLifetime DB.setMaxIdleConns DB.setMaxOpenConns
    DB.setConnMaxIdleTime
  cases conn.connectionPool.connMaxLifetime <;>
    cases conn.connectionPool.maxIdleConnections <;>
    cases conn.connectionPool.maxOpenConnections <;>
    cases conn.connectionPool.connMaxIdleTime <;> rfl

/-- On a successful run, `Open`'s loop appends one entry per spec, whose
handle is `resolvedDB`, and records its connection string. -/
theorem openLoop_ok (env : Env) (config : Config)
    (hmode : config.dsn ≠ "" ∨ config.cluster ≠ "" ∨ config.haCluster ≠ "")
    (l : List Connection) (acc : List (String × DB)) (tr : List String)
    (hgood : config.dsn = "" → ∀ conn ∈ l, conn.isMaster = true ∨ conn.isReadOnly = true) :
    openLoop env config l acc tr =
      (.ok (acc ++ l.map (fun conn => (conn.name, resolvedDB env config conn))),
        tr ++ l.map (fun conn => (resolvedDB env config conn).dsn)) := by
  induction l generalizing acc tr with
  | nil => simp [openLoop]
  | cons head tail ih =>
    unfold openLoop
    by_cases hd : config.dsn = ""
    · have hh := hgood hd head (by simp)
      have hnotrep : ¬ (config.dsn = "" ∧ ¬ head.isMaster = true ∧ ¬ head.isReadOnly = true) := by
        rcases hh with h | h <;> simp [h]
      rw [if_neg hnotrep]
      rcases hmode with h | h | h
      · exact absurd hd h
      · simp only [hd, h, ne_eq, not_true_eq_false, reduceIte, not_false_eq_true,
          openMySQL_eq]
        rw [applyPool_fresh]
        rw [ih _ _ (fun _ conn hc => hgood hd conn (by simp [hc]))]
        simp [resolvedDB, resolveDSN, hd, h]
      · by_cases hc : config.cluster = ""
        · simp only [hd, hc, h, ne_eq, not_true_eq_false, reduceIte, not_false_eq_true,
            openMySQLHA_eq]
          rw [applyPool_fresh]
          rw [ih _ _ (fun _ conn hcm => hgood hd conn (by simp [hcm]))]
          simp [resolvedDB, resolveDSN, hd, hc, h]
        · simp only [hd, hc, ne_eq, not_true_eq_false, reduceIte, not_false_eq_true,
            openMySQL_eq]
          rw [applyPool_fresh]
          rw [ih _ _ (fun _ conn hcm => hgood hd conn (by simp [hcm]))]
          simp [resolvedDB, resolveDSN, hd, hc]
    · have hnotrep : ¬ (config.dsn = "" ∧ ¬ head.isMaster = true ∧ ¬ head.isReadOnly = true) := by
        simp [hd]
      rw [if_neg hnotrep]
      simp only [hd, ne_eq, not_false_eq_true, reduceIte, openDSN]
      rw [applyPool_fresh]
      rw [ih _ _ (fun h0 => absurd h0 hd)]
      simp [resolvedDB, resolveDSN, hd]

/-- In cluster modes, a spec that is neither master nor read-only makes
`Open`'s loop fail with the replica-write error for some such spec. -/
theorem openLoop_err (env : Env) (config : Config) (hd : config.dsn = "")
    (hmode : config.cluster ≠ "" ∨ config.haCluster ≠ "")
    (l : List Connection) (acc : List (String × DB)) (tr : List String)
    (hbad : ∃ conn ∈ l, conn.isMaster = false ∧ conn.isReadOnly = false) :
    ∃ conn ∈ l, conn.isMaster = false ∧ conn.isReadOnly = false ∧
      (openLoop env config l acc tr).1 = .error (.cannotWriteReplica conn.name) := by
  induction l generalizing acc tr with
  | nil => simp at hbad
  | cons head tail ih =>
    unfold openLoop
    by_cases hh : head.isMaster = false ∧ head.isReadOnly = false
    · refine ⟨head, by simp, hh.1, hh.2, ?_⟩
      rw [if_pos ⟨hd, by simp [hh.1], by simp [hh.2]⟩]
    · have hnotrep : ¬ (config.dsn = "" ∧ ¬ head.isMaster = true ∧
          ¬ head.isReadOnly = true) := by
        intro hcon
        exact hh ⟨by simpa using hcon.2.1, by simpa using hcon.2.2⟩
      rw [if_neg hnotrep]
      have hbad2 : ∃ conn ∈ tail, conn.isMaster = false ∧ conn.isReadOnly = false := by
        rcases hbad with ⟨conn, hmem, hprop⟩
        rcases List.mem_cons.mp hmem with rfl | hmem2
        · exact absurd ⟨hprop.1, hprop.2⟩ hh
        · exact ⟨conn, hmem2, hprop⟩
      rcases hmode with hm | hm
      · simp only [hd, hm, ne_eq, not_true_eq_false, reduceIte, not_false_eq_true,
          openMySQL_eq]
        rcases ih _ _ hbad2 with ⟨conn, hmem, h1, h2, h3⟩
        exact ⟨conn, by simp [hmem], h1, h2, h3⟩
      · by_cases hc : config.cluster = ""
        · simp only [hd, hc, hm, ne_eq, not_true_eq_false, reduceIte, not_false_eq_true,
            openMySQLHA_eq]
          rcases ih _ _ hbad2 with ⟨conn, hmem, h1, h2, h3⟩
          exact ⟨conn, by simp [hmem], h1, h2, h3⟩
        · simp only [hd, hc, ne_eq, not_true_eq_false, reduceIte, not_false_eq_true,
            openMySQL_eq]
          rcases ih _ _ hbad2 with ⟨conn, hmem, h1, h2, h3⟩
          exact ⟨conn, by simp [hmem], h1, h2, h3⟩

/-- `validateDuplicateNames`' loop accepts a duplicate-free list none of
whose names were already seen. -/
theorem validateDuplicateNamesAux_eq_none (l : List Connection) (seen : List String)
    (h1 : (l.map Connection.name).Nodup)
    (h2 : ∀ n ∈ l.map Connection.name, n ∉ seen) :
    validateDuplicateNamesAux l seen = none := by
  induction l generalizing seen with
  | nil => rfl
  | cons head tail ih =>
    unfold validateDuplicateNamesAux
    rw [if_neg (h2 head.name (by simp))]
    refine ih _ (List.Nodup.of_cons h1) ?_
    intro n hn
    simp only [List.mem_cons, not_or]
    refine ⟨?_, h2 n (by simp [hn])⟩
    intro heq
    subst heq
    exact (List.nodup_cons.mp h1).1 hn

/-- If `validateDuplicateNames`' loop rejects, the error names a
connection name that occurs in the list and is duplicated (or was
already seen). -/
theorem validateDuplicateNamesAux_eq_some (l : List Connection) (seen : List String)
    (e : OpenError) (h : validateDuplicateNamesAux l seen = some e) :
    ∃ n, e = .duplicateName n ∧ n ∈ l.map Connection.name ∧
      (n ∈ seen ∨ 2 ≤ (l.map Connection.name).count n) := by
  induction l generalizing seen with
  | nil => simp [validateDuplicateNamesAux] at h
  | cons head tail ih =>
    unfold validateDuplicateNamesAux at h
    by_cases hmem : head.name ∈ seen
    · rw [if_pos hmem] at h
      exact ⟨head.name, by simpa using h.symm, by simp, Or.inl hmem⟩
    · rw [if_neg hmem] at h
      rcases ih _ h with ⟨n, rfl, hn, hcase⟩
      refine ⟨n, rfl, by simp [hn], ?_⟩
      rcases hcase with hseen | hcount
      · rcases List.mem_cons.mp hseen with heq | hs
        · right
          subst heq
          have h1 : 0 < (tail.map Connection.name).count head.name :=
            List.count_pos_iff.mpr hn
          simp only [List.map_cons, List.count_cons, beq_self_eq_true, if_true]
          omega
        · exact Or.inl hs
      · right
        simp only [List.map_cons, List.count_cons]
        omega

/-- If `validateDuplicateNames`' loop accepts, the list is
duplicate-free and disjoint from the seen set. -/
theorem validateDuplicateNamesAux_none_inv (l : List Connection) (seen : List String)
    (h : validateDuplicateNamesAux l seen = none) :
    (l.map Connection.name).Nodup ∧ ∀ n ∈ l.map Connection.name, n ∉ seen := by
  induction l generalizing seen with
  | nil => simp
  | cons head tail ih =>
    unfold validateDuplicateNamesAux at h
    by_cases hmem : head.name ∈ seen
    · rw [if_pos hmem] at h
      cases h
    · rw [if_neg hmem] at h
      rcases ih _ h with ⟨ndtail, hall⟩
      constructor
      · simp only [List.map_cons, List.nodup_cons]
        refine ⟨fun hc => ?_, ndtail⟩
        exact (hall head.name hc) (by simp)
      · intro n hn
        rcases List.mem_cons.mp hn with rfl | hs
        · exact hmem
        · intro hcon
          exact (hall n hs) (by simp [hcon])

/-- A duplicated name makes `validateDuplicateNames` report a duplicate
that indeed occurs at least twice. -/
theorem validateDuplicateNames_of_dup (l : List Connection)
    (h : ¬ (l.map Connection.name).Nodup) :
    ∃ n, validateDuplicateNames l = some (.duplicateName n) ∧
      2 ≤ (l.map Connection.name).count n := by
  rcases he : validateDuplicateNames l with _ | e
  · exact absurd (validateDuplicateNamesAux_none_inv l [] he).1 h
  · rcases validateDuplicateNamesAux_eq_some l [] e he with ⟨n, rfl, _, hcase⟩
    rcases hcase with hseen | hcount
    · simp at hseen
    · exact ⟨n, rfl, hcount⟩

/-- Under invariants 1 and 2, the first five checks of `validate` all
pass. -/
theorem validate_eq_tail (c : Config) (h1 : invariant1 c) (h2 : invariant2 c) :
    validate c = (if c.connections.length = 0 then some .noConnections
                  else validateDuplicateNames c.connections) := by
  unfold invariant2 clusterMode at h2
  rcases h1 with ⟨hd, hc, hh⟩ | ⟨hd, hc, hh⟩ | ⟨hd, hc, hh⟩
  · have hs : c.schema = "" := by simpa [hc, hh] using h2
    unfold validate
    simp [hd, hc, hh, hs]
  · have hs : c.schema ≠ "" := h2.mpr (Or.inl hc)
    unfold validate
    simp [hd, hc, hh, hs]
  · have hs : c.schema ≠ "" := h2.mpr (Or.inr hh)
    unfold validate
    simp [hd, hc, hh, hs]

/-- `validate` passes when invariants 1–4 hold. -/
theorem validate_eq_none (c : Config) (h1 : invariant1 c) (h2 : invariant2 c)
    (h3 : invariant3 c) (h4 : invariant4 c) : validate c = none := by
  rw [validate_eq_tail c h1 h2]
  rw [if_neg (by simpa [List.length_eq_zero] using h3)]
  exact validateDuplicateNamesAux_eq_none c.connections [] h4 (by simp)

/-- `Open` returns the error `validate` reports. -/
theorem Open_of_validate_some (env : Env) (c : Config) (e : OpenError)
    (h : validate c = some e) : Open env c = .error e := by
  unfold Open openRun
  rw [h]

/-- No handle is opened when `validate` fails. -/
theorem openedDSNs_of_validate_some (env : Env) (c : Config) (e : OpenError)
    (h : validate c = some e) : openedDSNs env c = [] := by
  unfold openedDSNs openRun
  rw [h]

/-- When `validate` passes, `Open` runs the loop on an empty registry. -/
theorem Open_of_validate_none (env : Env) (c : Config) (h : validate c = none) :
    Open env c = (openLoop env c c.connections [] []).1 := by
  unfold Open openRun
  rw [h]

/-- A successful lookup returns an entry of the registry. -/
theorem lookupDB_mem (dbs : List (String × DB)) (n : String) (db : DB)
    (h : lookupDB dbs n = some db) : (n, db) ∈ dbs := by
  unfold lookupDB at h
  rcases hf : dbs.find? (fun p => p.1 == n) with _ | p
  · rw [hf] at h
    cases h
  · rw [hf] at h
    obtain ⟨p1, p2⟩ := p
    have hp : p1 = n := by simpa using List.find?_some hf
    have hmem := List.mem_of_find?_eq_some hf
    have hdb : p2 = db := by simpa using h
    rw [← hp, ← hdb]
    exact hmem

/-- With unique keys, every entry is found by lookup. -/
theorem mem_lookupDB (dbs : List (String × DB)) (hnd : (dbs.map Prod.fst).Nodup)
    (n : String) (db : DB) (h : (n, db) ∈ dbs) : lookupDB dbs n = some db := by
  induction dbs with
  | nil => cases h
  | cons head tail ih =>
    rcases List.mem_cons.mp h with heq | hmem
    · have htrue : (head.1 == n) = true := by simp [← heq]
      unfold lookupDB
      simp [List.find?_cons, htrue, ← heq]
    · have hhead : head.1 ∉ tail.map Prod.fst := (List.nodup_cons.mp (by simpa using hnd)).1
      have hfalse : (head.1 == n) = false := by
        simp only [beq_eq_false_iff_ne, ne_eq]
        intro heq2
        exact hhead (heq2 ▸ List.mem_map_of_mem Prod.fst hmem)
      have htail := ih (List.Nodup.of_cons (by simpa using hnd)) hmem
      unfold lookupDB at htail ⊢
      simp [List.find?_cons, hfalse, htail]

/-- A name among the registry's keys is found by lookup. -/
theorem lookupDB_isSome (dbs : List (String × DB)) (n : String)
    (h : n ∈ dbs.map Prod.fst) : ∃ db, lookupDB dbs n = some db := by
  rcases List.mem_map.mp h with ⟨p, hp, rfl⟩
  unfold lookupDB
  rcases hf : dbs.find? (fun q => q.1 == p.1) with _ | q
  · have := List.find?_eq_none.mp hf p hp
    simp at this
  · refine ⟨q.2, ?_⟩
    rw [hf]
    rfl

/-- `Close`'s fold over the sorted names collects exactly the rendered
failures, in order. -/
theorem close_foldl_eq (closeFn : DB → Option String) (dbs : List (String × DB))
    (names : List String) (acc : List String) :
    names.foldl (fun errs name =>
      match lookupDB dbs name with
      | some db =>
        match closeFn db with
        | some err => errs ++ [name ++ ": " ++ err]
        | none => errs
      | none => errs) acc =
    acc ++ names.filterMap (fun name =>
      match lookupDB dbs name with
      | some db => (closeFn db).map fun e => name ++ ": " ++ e
      | none => none) := by
  induction names generalizing acc with
  | nil => simp
  | cons head tail ih =>
    simp only [List.foldl_cons, List.filterMap_cons]
    rcases hdb : lookupDB dbs head with _ | db
    all_goals simp only [hdb]
    · rw [ih]
    · rcases hcf : closeFn db with _ | err
      all_goals simp only [hcf, Option.map_some', Option.map_none']
      · rw [ih]
      · rw [ih]
        simp

/-- `Close` in terms of the failure list. -/
theorem Close_eq (closeFn : DB → Option String) (c : connections) :
    connections.Close closeFn c =
      if (closeFailures closeFn c).length > 0 then
        some ("failed to close connections: " ++
          String.intercalate ", " (closeFailures closeFn c))
      else none := by
  unfold connections.Close closeFailures
  dsimp only
  rw [close_foldl_eq]
  simp

/-- If `validate` passes, invariants 1–4 hold. -/
theorem validate_none_invariants (c : Config) (h : validate c = none) :
    invariant1 c ∧ invariant2 c ∧ invariant3 c ∧ invariant4 c := by
  unfold validate at h
  split_ifs at h with g1 g2 g3 g4 g5 g6
  refine ⟨?_, ?_, ?_, ?_⟩
  · unfold invariant1
    tauto
  · unfold invariant2 clusterMode
    constructor
    · intro hs
      by_contra hcon
      push_neg at hcon
      exact g5 ⟨by tauto, by tauto⟩
    · intro hmode hs
      rcases hmode with hm | hm
      · by_cases hd : c.dsn = ""
        · exact g5 ⟨hd, hs⟩
        · exact g2 ⟨hd, Or.inl hm⟩
      · by_cases hd : c.dsn = ""
        · exact g5 ⟨hd, hs⟩
        · exact g2 ⟨hd, Or.inr hm⟩
  · unfold invariant3
    intro hcon
    exact g6 (by simp [hcon])
  · exact (validateDuplicateNamesAux_none_inv c.connections [] h).1

/-- If any of invariants 1–4 fails, `validate` reports some error. -/
theorem validate_isSome (c : Config)
    (h14 : ¬ (invariant1 c ∧ invariant2 c ∧ invariant3 c ∧ invariant4 c)) :
    ∃ e, validate c = some e := by
  rcases hv : validate c with _ | e
  · exact absurd (validate_none_invariants c hv) h14
  · exact ⟨e, rfl⟩

/-- `validate` never reports the replica-write error. -/
theorem validate_some_not_replica (c : Config) (e : OpenError)
    (h : validate c = some e) : ∀ n, e ≠ .cannotWriteReplica n := by
  intro n hcon
  subst hcon
  unfold validate at h
  split_ifs at h
  · simp at h
  · simp at h
  · simp at h
  · simp at h
  · simp at h
  · simp at h
  · rcases validateDuplicateNamesAux_eq_some _ _ _ h with ⟨m, heq, _, _⟩
    cases heq

/-- A successful `Open` registers, in declaration order, exactly the
resolved handle of every spec. -/
theorem Open_ok_char (env : Env) (c : Config) (dbs : List (String × DB))
    (hok : Open env c = .ok dbs) :
    dbs = c.connections.map (fun conn => (conn.name, resolvedDB env c conn)) := by
  rcases hv : validate c with _ | e
  · have hmode : c.dsn ≠ "" ∨ c.cluster ≠ "" ∨ c.haCluster ≠ "" := by
      by_contra hcon
      push_neg at hcon
      unfold validate at hv
      rw [if_pos ⟨hcon.1, hcon.2.1, hcon.2.2⟩] at hv
      cases hv
    have hgood : c.dsn = "" →
        ∀ conn ∈ c.connections, conn.isMaster = true ∨ conn.isReadOnly = true := by
      intro hd conn hmem
      by_contra hcon
      push_neg at hcon
      have hmode2 : c.cluster ≠ "" ∨ c.haCluster ≠ "" := by
        rcases hmode with hm | hm | hm
        · exact absurd hd hm
        · exact Or.inl hm
        · exact Or.inr hm
      have hbad : ∃ conn2 ∈ c.connections,
          conn2.isMaster = false ∧ conn2.isReadOnly = false :=
        ⟨conn, hmem, by simpa using hcon.1, by simpa using hcon.2⟩
      rcases openLoop_err env c hd hmode2 c.connections [] [] hbad with
        ⟨conn2, _, _, _, herr⟩
      rw [Open_of_validate_none env c hv, herr] at hok
      cases hok
    rw [Open_of_validate_none env c hv,
      openLoop_ok env c hmode c.connections [] [] hgood] at hok
    simpa using hok.symm
  · rw [Open_of_validate_some env c e hv] at hok
    cases hok

/-! ## Claim theorems -/

/-- **C1.** In singleCluster mode, for every ConnectionSpec, `open`
composes `username:password@tcp(host)/schema` with `?extraParameters`
appended iff the spec's parameters are non-empty, reading host from
`DB_MYSQL_{CLUSTER}_{SCHEMA}_{SCHEMA}_ENDPOINT` (master) or
`…_LOCAL_REPLICA_ENDPOINT` (replica), username `{schema}_RPROD` /
`{schema}_WPROD` by read-only role, and the password from the parallel
`…_RPROD` / `…_WPROD` variable (cluster and schema upper-cased in
variable names); in particular the desaenv08/bar master example yields
`bar_WPROD:password@tcp(localhost:3306)/bar?<parameters>`. -/
theorem openMySQL_connection_string (env : Env) (cluster schema : String)
    (conn : Connection) :
    openMySQL env cluster schema conn =
        .ok { dsn := specSingleClusterDSN env cluster schema conn } ∧
      Open envC1 cfgC1 = .ok [("foo",
        { dsn := "bar_WPROD:password@tcp(localhost:3306)/bar?timeout=100ms&readTimeout=100ms&writeTimeout=100ms&parseTime=true" })] :=
  ⟨openMySQL_eq env cluster schema conn, by decide⟩

/-- **C5.** In haCluster mode, the host is read from
`DB_HA_MYSQL_{CLUSTER}_{SCHEMA}_{SCHEMA}_WR_ENDPOINT` when the spec is a
master and from `…_RO_ENDPOINT` otherwise, read-only specs get username
`{schema}_RPROD` and the password of the `…_RPROD` variable (`WPROD`
analogously), with the same
`username:password@tcp(host)/schema[?extraParameters]` composition as
single-cluster mode; in particular the desaenv08/bar read-only replica
example yields `bar_RPROD:password@tcp(localhost:3306)/bar?<parameters>`. -/
theorem openMySQLHA_connection_string (env : Env) (cluster schema : String)
    (conn : Connection) :
    openMySQLHA env cluster schema conn =
        .ok { dsn := specHAClusterDSN env cluster schema conn } ∧
      Open envC5 cfgC5 = .ok [("foo",
        { dsn := "bar_RPROD:password@tcp(localhost:3306)/bar?timeout=100ms&readTimeout=100ms&writeTimeout=100ms&parseTime=true" })] :=
  ⟨openMySQLHA_eq env cluster schema conn, by decide⟩

/-- **C6.** In direct (DSN) mode every opened handle's connection string
equals the configured DSN exactly, whatever each spec's `parameters`
field holds: per-connection parameters are ignored. -/
theorem open_direct_dsn_verbatim (env : Env) (c : Config) (hd : c.dsn ≠ "")
    (dbs : List (String × DB)) (hok : Open env c = .ok dbs) :
    ∀ p ∈ dbs, p.2.dsn = c.dsn := by
  have hchar := Open_ok_char env c dbs hok
  subst hchar
  intro p hp
  rcases List.mem_map.mp hp with ⟨conn, _, rfl⟩
  simp [resolvedDB, resolveDSN, hd]

/-- Witness for C6: the direct-DSN test configuration, whose spec's
`parameters` field is non-empty, yields a handle whose connection string
is the DSN verbatim. -/
theorem open_direct_dsn_verbatim_witness :
    cfgDirect.dsn ≠ "" ∧ Open emptyEnv cfgDirect = .ok [("foo", dbDirect)] ∧
      dbDirect.dsn = cfgDirect.dsn :=
  ⟨by decide, by decide,
    open_direct_dsn_verbatim emptyEnv cfgDirect (by decide) [("foo", dbDirect)]
      (by decide) ("foo", dbDirect) (by decide)⟩

/-- **C8.** For every spec, `open` applies each of the four pool
settings to the opened handle iff the field is present (non-nil) in the
spec; an absent setting leaves the handle's built-in default in place
(`none` in the model) and is never coerced to zero. -/
theorem open_pool_settings_iff_present (env : Env) (c : Config)
    (dbs : List (String × DB)) (hok : Open env c = .ok dbs) :
    ∀ p ∈ dbs, ∃ conn ∈ c.connections, conn.name = p.1 ∧
      p.2.connMaxLifetime = conn.connectionPool.connMaxLifetime ∧
      p.2.maxIdleConns = conn.connectionPool.maxIdleConnections ∧
      p.2.maxOpenConns = conn.connectionPool.maxOpenConnections ∧
      p.2.connMaxIdleTime = conn.connectionPool.connMaxIdleTime := by
  have hchar := Open_ok_char env c dbs hok
  subst hchar
  intro p hp
  rcases List.mem_map.mp hp with ⟨conn, hmem, rfl⟩
  exact ⟨conn, hmem, rfl, rfl, rfl, rfl, rfl⟩

/-- Witness for C8: a spec configuring only the lifetime and
max-open-connections settings yields a handle with exactly those two
applied and the other two left at the built-in default. -/
theorem open_pool_settings_iff_present_witness :
    Open emptyEnv cfgPool = .ok [("foo", dbPool)] ∧
      dbPool.connMaxLifetime = some 600000000000 ∧ dbPool.maxIdleConns = none ∧
      dbPool.maxOpenConns = some 101 ∧ dbPool.connMaxIdleTime = none ∧
      (∃ conn ∈ cfgPool.connections, conn.name = "foo" ∧
        dbPool.connMaxLifetime = conn.connectionPool.connMaxLifetime ∧
        dbPool.maxIdleConns = conn.connectionPool.maxIdleConnections ∧
        dbPool.maxOpenConns = conn.connectionPool.maxOpenConnections ∧
        dbPool.connMaxIdleTime = conn.connectionPool.connMaxIdleTime) :=
  ⟨by decide, rfl, rfl, rfl, rfl,
    open_pool_settings_iff_present emptyEnv cfgPool [("foo", dbPool)] (by decide)
      ("foo", dbPool) (by decide)⟩

/-- **C10.** In direct (DSN) mode a spec with both `isMaster` and
`isReadOnly` false is accepted: the cannot-write-to-a-replica check only
runs when the DSN is empty, so a direct-DSN `open` never returns the
replica-write ConfigError (shown together with a run accepting such a
spec). -/
theorem open_direct_no_replica_write_error (env : Env) (c : Config)
    (hd : c.dsn ≠ "") :
    (∀ e, Open env c = .error e → ∀ n, e ≠ .cannotWriteReplica n) ∧
      Open emptyEnv cfgDirect = .ok [("foo", dbDirect)] := by
  constructor
  · intro e he n
    rcases hv : validate c with _ | e2
    · rw [Open_of_validate_none env c hv,
        openLoop_ok env c (Or.inl hd) c.connections [] [] (fun h0 => absurd h0 hd)] at he
      cases he
    · rw [Open_of_validate_some env c e2 hv] at he
      have heq := Except.error.inj he
      subst heq
      exact validate_some_not_replica c e2 hv n
  · decide

/-- Witness for C10: a direct-DSN configuration that fails (duplicate
names) and whose error is not the replica-write error. -/
theorem open_direct_no_replica_write_error_witness :
    cfgDirectDup.dsn ≠ "" ∧
      Open emptyEnv cfgDirectDup = .error (.duplicateName "x") ∧
      OpenError.duplicateName "x" ≠ .cannotWriteReplica "x" :=
  ⟨by decide, by decide,
    (open_direct_no_replica_write_error emptyEnv cfgDirectDup (by decide)).1
      (.duplicateName "x") (by decide) "x"⟩

/-- **C2.** `Close` attempts every handle in ascending lexicographic
name order, continues past individual failures, and returns an
aggregate error rendering each failure as `"name: underlying-error"`
joined by `", "` iff at least one close failed (ok when all succeed). -/
theorem Close_aggregate (closeFn : DB → Option String) (c : connections)
    (hnd : (c.dbs.map Prod.fst).Nodup) :
    (connections.Close closeFn c = none ↔ ∀ p ∈ c.dbs, closeFn p.2 = none) ∧
      (closeFailures closeFn c ≠ [] →
        connections.Close closeFn c =
          some ("failed to close connections: " ++
            String.intercalate ", " (closeFailures closeFn c))) := by
  have hperm : List.Perm (sortStrings (c.dbs.map Prod.fst)) (c.dbs.map Prod.fst) :=
    List.perm_insertionSort _ _
  constructor
  · rw [Close_eq]
    constructor
    · intro hnone p hp
      split_ifs at hnone with hlen
      have hempty : closeFailures closeFn c = [] := by
        cases hcf : closeFailures closeFn c with
        | nil => rfl
        | cons a b =>
          rw [hcf] at hlen
          simp at hlen
      unfold closeFailures at hempty
      have hall := List.filterMap_eq_nil_iff.mp hempty
      have hkey : p.1 ∈ sortStrings (c.dbs.map Prod.fst) :=
        hperm.mem_iff.mpr (List.mem_map_of_mem Prod.fst hp)
      have hthis := hall p.1 hkey
      rw [mem_lookupDB c.dbs hnd p.1 p.2 (by simpa using hp)] at hthis
      simpa using hthis
    · intro hall
      rw [if_neg]
      simp only [gt_iff_lt, not_lt, Nat.le_zero, List.length_eq_zero]
      unfold closeFailures
      rw [List.filterMap_eq_nil_iff]
      intro name hname
      rcases lookupDB_isSome c.dbs name (hperm.mem_iff.mp hname) with ⟨db, hdb⟩
      rw [hdb]
      show Option.map (fun e => name ++ ": " ++ e) (closeFn db) = none
      have hmem := lookupDB_mem c.dbs name db hdb
      rw [hall (name, db) hmem]
      rfl
  · intro hne
    rw [Close_eq, if_pos]
    rcases hcf : closeFailures closeFn c with _ | ⟨a, b⟩
    · exact absurd hcf hne
    · simp

/-- Witness for C2: a registry with handles foo, bar, baz whose closes
all fail produces the aggregate listing bar, baz, foo in that order. -/
theorem Close_aggregate_witness :
    (regFooBarBaz.dbs.map Prod.fst).Nodup ∧
      connections.Close closeAllFail regFooBarBaz =
        some ("failed to close connections: bar: driver: bad connection, baz: driver: bad connection, foo: driver: bad connection") :=
  ⟨by decide,
    ((Close_aggregate closeAllFail regFooBarBaz (by decide)).2 (by decide)).trans
      (by decide)⟩

/-- **C3.** A configuration violating more than one of the five
invariants of §3 makes `open`'s validation report exactly the first
violated invariant in the fixed priority order, the returned error
identifying that invariant (and, for duplicate names, a name that does
occur more than once). -/
theorem open_reports_first_violation (env : Env) (c : Config)
    (h : 2 ≤ numViolations c) :
    ∃ e, Open env c = .error e ∧ some (invariantOf e) = firstViolation c ∧
      ∀ n, e = .duplicateName n →
        2 ≤ (c.connections.map Connection.name).count n := by
  by_cases h1 : invariant1 c
  · by_cases h2 : invariant2 c
    · by_cases h3 : invariant3 c
      · by_cases h4 : invariant4 c
        · exfalso
          unfold numViolations at h
          rw [if_pos h1, if_pos h2, if_pos h3, if_pos h4] at h
          split_ifs at h <;> omega
        · rcases validateDuplicateNames_of_dup c.connections
            (by simpa [invariant4] using h4) with ⟨n, hdup, hcount⟩
          refine ⟨.duplicateName n, ?_, ?_, ?_⟩
          · apply Open_of_validate_some
            rw [validate_eq_tail c h1 h2,
              if_neg (by simpa [List.length_eq_zero] using h3)]
            exact hdup
          · simp [invariantOf, firstViolation, h1, h2, h3, h4]
          · intro m hm
            exact (OpenError.duplicateName.inj hm) ▸ hcount
      · exfalso
        have hempty : c.connections = [] := by simpa [invariant3] using h3
        have h4 : invariant4 c := by simp [invariant4, hempty]
        have h5 : invariant5 c := by simp [invariant5, hempty]
        unfold numViolations at h
        rw [if_pos h1, if_pos h2, if_neg (by simpa [invariant3] using h3),
          if_pos h4, if_pos h5] at h
        omega
    · have hfv : firstViolation c = some 2 := by simp [firstViolation, h1, h2]
      rcases h1 with ⟨hd, hc, hh⟩ | ⟨hd, hc, hh⟩ | ⟨hd, hc, hh⟩
      · have hs : c.schema ≠ "" := by
          intro hs0
          exact h2 (by simp [invariant2, clusterMode, hc, hh, hs0])
        exact ⟨.dsnSchemaExclusive,
          Open_of_validate_some env c _ (by unfold validate; simp [hd, hc, hh, hs]),
          by simp [invariantOf, hfv], fun n hn => by cases hn⟩
      · have hs : c.schema = "" := by
          by_contra hs0
          exact h2 (by simp [invariant2, clusterMode, hc, hs0])
        exact ⟨.schemaRequired,
          Open_of_validate_some env c _ (by unfold validate; simp [hd, hc, hh, hs]),
          by simp [invariantOf, hfv], fun n hn => by cases hn⟩
      · have hs : c.schema = "" := by
          by_contra hs0
          exact h2 (by simp [invariant2, clusterMode, hh, hs0])
        exact ⟨.schemaRequired,
          Open_of_validate_some env c _ (by unfold validate; simp [hd, hc, hh, hs]),
          by simp [invariantOf, hfv], fun n hn => by cases hn⟩
  · have hfv : firstViolation c = some 1 := by simp [firstViolation, h1]
    by_cases hd : c.dsn = ""
    · by_cases hc : c.cluster = ""
      · by_cases hh : c.haCluster = ""
        · exact ⟨.allEmpty,
            Open_of_validate_some env c _ (by unfold validate; simp [hd, hc, hh]),
            by simp [invariantOf, hfv], fun n hn => by cases hn⟩
        · exact absurd (Or.inr (Or.inr ⟨hd, hc, hh⟩)) h1
      · by_cases hh : c.haCluster = ""
        · exact absurd (Or.inr (Or.inl ⟨hd, hc, hh⟩)) h1
        · exact ⟨.clusterExclusive,
            Open_of_validate_some env c _ (by unfold validate; simp [hd, hc, hh]),
            by simp [invariantOf, hfv], fun n hn => by cases hn⟩
    · by_cases hc : c.cluster = ""
      · by_cases hh : c.haCluster = ""
        · exact absurd (Or.inl ⟨hd, hc, hh⟩) h1
        · exact ⟨.dsnExclusive,
            Open_of_validate_some env c _ (by unfold validate; simp [hd, hc, hh]),
            by simp [invariantOf, hfv], fun n hn => by cases hn⟩
      · exact ⟨.dsnExclusive,
          Open_of_validate_some env c _ (by unfold validate; simp [hd, hc]),
          by simp [invariantOf, hfv], fun n hn => by cases hn⟩

/-- Witness for C3: a configuration violating invariants 1, 2 and 3 at
once is rejected with the invariant-1 error. -/
theorem open_reports_first_violation_witness :
    2 ≤ numViolations cfgMultiViolation ∧
      ∃ e, Open emptyEnv cfgMultiViolation = .error e ∧
        some (invariantOf e) = firstViolation cfgMultiViolation ∧
        ∀ n, e = .duplicateName n →
          2 ≤ (cfgMultiViolation.connections.map Connection.name).count n :=
  ⟨by decide, open_reports_first_violation emptyEnv cfgMultiViolation (by decide)⟩

/-- **C4 counterexample.** A cluster-mode configuration whose second
spec violates invariant 5 behind a valid first spec: `Open` does return
the replica-write ConfigError, but only after opening a handle for the
first spec — the claim's "no handle is opened for any spec" fails. -/
theorem open_invariant5_lateopen_counterexample :
    firstViolation cfgLateReplica = some 5 ∧
      Open emptyEnv cfgLateReplica = .error (.cannotWriteReplica "b") ∧
      openedDSNs emptyEnv cfgLateReplica = ["bar_WPROD:@tcp()/bar"] :=
  ⟨by decide, by decide, by decide⟩

/-- **C4 (amended).** Every configuration violating an invariant of §3
makes `open` return a ConfigError and never a (partial) registry; for a
first violation among invariants 1–4 the error precedes any connection
attempt (no handle is opened), while an invariant-5 violation is
detected spec-by-spec inside the connection loop, so handles may already
have been opened for earlier valid specs.  When invariants 1–3 hold and
names are duplicated, the error names a duplicate that occurs at least
twice and no handle is opened. -/
theorem open_config_error_before_connecting (env : Env) (c : Config)
    (h : firstViolation c ≠ none) :
    (∃ e, Open env c = .error e) ∧
      (∀ k, firstViolation c = some k → k ≤ 4 → openedDSNs env c = []) ∧
      (invariant1 c → invariant2 c → invariant3 c → ¬ invariant4 c →
        ∃ n, Open env c = .error (.duplicateName n) ∧
          2 ≤ (c.connections.map Connection.name).count n ∧
          openedDSNs env c = []) := by
  refine ⟨?_, ?_, ?_⟩
  · rcases hv : validate c with _ | e
    · obtain ⟨i1, i2, i3, i4⟩ := validate_none_invariants c hv
      have h5 : ¬ invariant5 c := by
        intro i5
        apply h
        unfold firstViolation
        rw [if_neg (not_not_intro i1), if_neg (not_not_intro i2),
          if_neg (not_not_intro i3), if_neg (not_not_intro i4),
          if_neg (not_not_intro i5)]
      unfold invariant5 at h5
      push_neg at h5
      obtain ⟨hmode, conn, hmem, hm, hr⟩ := h5
      have hd : c.dsn = "" := by
        rcases i1 with ⟨hd2, hc2, hh2⟩ | ⟨hd2, _, _⟩ | ⟨hd2, _, _⟩
        · exact absurd hmode (by simp [clusterMode, hc2, hh2])
        · exact hd2
        · exact hd2
      have hmode2 : c.cluster ≠ "" ∨ c.haCluster ≠ "" := hmode
      rcases openLoop_err env c hd hmode2 c.connections [] []
          ⟨conn, hmem, by simpa using hm, by simpa using hr⟩ with
        ⟨conn2, _, _, _, herr⟩
      exact ⟨.cannotWriteReplica conn2.name, by
        rw [Open_of_validate_none env c hv, herr]⟩
    · exact ⟨e, Open_of_validate_some env c e hv⟩
  · intro k hk hk4
    have h14 : ¬ (invariant1 c ∧ invariant2 c ∧ invariant3 c ∧ invariant4 c) := by
      rintro ⟨i1, i2, i3, i4⟩
      unfold firstViolation at hk
      rw [if_neg (not_not_intro i1), if_neg (not_not_intro i2),
        if_neg (not_not_intro i3), if_neg (not_not_intro i4)] at hk
      split_ifs at hk
      · have := Option.some.inj hk
        omega
    rcases validate_isSome c h14 with ⟨e, hve⟩
    exact openedDSNs_of_validate_some env c e hve
  · intro i1 i2 i3 h4
    rcases validateDuplicateNames_of_dup c.connections
      (by simpa [invariant4] using h4) with ⟨n, hdup, hcount⟩
    have hv : validate c = some (.duplicateName n) := by
      rw [validate_eq_tail c i1 i2,
        if_neg (by simpa [List.length_eq_zero] using i3)]
      exact hdup
    exact ⟨n, Open_of_validate_some env c _ hv, hcount,
      openedDSNs_of_validate_some env c _ hv⟩

/-- Witness for C4 (amended): a duplicated connection name yields the
duplicate-naming ConfigError with zero handles opened. -/
theorem open_config_error_before_connecting_witness :
    firstViolation cfgDupName ≠ none ∧
      (∃ n, Open emptyEnv cfgDupName = .error (.duplicateName n) ∧
        2 ≤ (cfgDupName.connections.map Connection.name).count n ∧
        openedDSNs emptyEnv cfgDupName = []) :=
  ⟨by decide,
    (open_config_error_before_connecting emptyEnv cfgDupName (by decide)).2.2
      (by decide) (by decide) (by decide) (by decide)⟩

/-- **C7 counterexample.** With the required environment variables unset
(not merely empty), a single-cluster `Open` does not fail: it silently
composes the connection string with empty host and password. -/
theorem open_missing_env_counterexample :
    emptyEnv "DB_MYSQL_DESAENV08_BAR_BAR_ENDPOINT" = none ∧
      emptyEnv "DB_MYSQL_DESAENV08_BAR_BAR_WPROD" = none ∧
      Open emptyEnv cfgMissingEnv = .ok [("foo", { dsn := "bar_WPROD:@tcp()/bar" })] :=
  ⟨rfl, rfl, by decide⟩

/-- **C7 (amended).** A missing endpoint or password environment
variable never surfaces as an error: `os.Getenv` reads it as the empty
string, resolution always succeeds, and the connection string is
composed with the empty host/password (e.g. `bar_WPROD:@tcp()/bar`). -/
theorem open_missing_env_composes_empty (cluster schema : String) (conn : Connection) :
    (∀ key, getenv emptyEnv key = "") ∧
      openMySQL emptyEnv cluster schema conn =
        .ok { dsn := specSingleClusterDSN emptyEnv cluster schema conn } ∧
      openMySQLHA emptyEnv cluster schema conn =
        .ok { dsn := specHAClusterDSN emptyEnv cluster schema conn } ∧
      Open emptyEnv cfgMissingEnv = .ok [("foo", { dsn := "bar_WPROD:@tcp()/bar" })] :=
  ⟨fun _ => rfl, openMySQL_eq emptyEnv cluster schema conn,
    openMySQLHA_eq emptyEnv cluster schema conn, by decide⟩

/-! ## Parse-format round trip: general theory -/


/-- Digit characters are digits. -/
theorem digitChar_isDigit (d : Nat) (h : d < 10) :
    (Char.ofNat (48 + d)).isDigit = true := by
  interval_cases d <;> decide

/-- Value of a digit character. -/
theorem digitChar_toNat (d : Nat) (h : d < 10) :
    (Char.ofNat (48 + d)).toNat - 48 = d := by
  interval_cases d <;> decide

/-- A digit character equals `'0'` iff its value is zero. -/
theorem digitChar_beq_zero (d : Nat) (h : d < 10) :
    ((Char.ofNat (48 + d)) == '0') = decide (d = 0) := by
  interval_cases d <;> decide

/-- A digit passes the `[0-9.]` entry check. -/
theorem isDigitOrDot_of_isDigit (c : Char) (h : c.isDigit = true) :
    isDigitOrDot c = true := by
  simp [isDigitOrDot, h]

/-- Digit values lie below 10. -/
theorem isDigit_toNat_sub_lt (c : Char) (h : c.isDigit = true) :
    c.toNat - 48 < 10 := by
  have h2 : 48 ≤ c.toNat ∧ c.toNat ≤ 57 := by
    simp [Char.isDigit] at h
    exact ⟨h.1, h.2⟩
  omega

theorem digitsValAux_nil (x : Nat) : digitsValAux x [] = x := rfl

theorem digitsValAux_cons (x : Nat) (c : Char) (ds : List Char) :
    digitsValAux x (c :: ds) = digitsValAux (x * 10 + (c.toNat - 48)) ds := rfl

theorem digitsValAux_append (x : Nat) (a b : List Char) :
    digitsValAux x (a ++ b) = digitsValAux (digitsValAux x a) b := by
  unfold digitsValAux
  exact List.foldl_append _ _ _ _

/-- Consuming digits never decreases the accumulator. -/
theorem le_digitsValAux (x : Nat) (ds : List Char) : x ≤ digitsValAux x ds := by
  induction ds generalizing x with
  | nil => exact Nat.le_refl x
  | cons c ds ih =>
    rw [digitsValAux_cons]
    exact le_trans (by omega) (ih (x * 10 + (c.toNat - 48)))

/-- Digit-string values are bounded by the digit count. -/
theorem digitsValAux_lt (x : Nat) (ds : List Char) (h : allDigits ds) :
    digitsValAux x ds < (x + 1) * 10 ^ ds.length := by
  induction ds generalizing x with
  | nil =>
    simp only [digitsValAux_nil, List.length_nil, pow_zero, mul_one]
    omega
  | cons c ds ih =>
    rw [digitsValAux_cons, List.length_cons]
    have hd : c.toNat - 48 < 10 := isDigit_toNat_sub_lt c (h c (by simp))
    have h2 := ih (x * 10 + (c.toNat - 48)) (fun c2 hc2 => h c2 (by simp [hc2]))
    have h3 : x * 10 + (c.toNat - 48) + 1 ≤ (x + 1) * 10 := by omega
    calc digitsValAux (x * 10 + (c.toNat - 48)) ds
        < (x * 10 + (c.toNat - 48) + 1) * 10 ^ ds.length := h2
      _ ≤ ((x + 1) * 10) * 10 ^ ds.length := Nat.mul_le_mul_right _ h3
      _ = (x + 1) * 10 ^ (ds.length + 1) := by ring

/-- `leadingInt` consumes exactly a digit block and computes its value
(values up to `2^63` never trip the overflow checks). -/
theorem leadingInt_digits (ds rest : List Char) (x : Nat)
    (hds : allDigits ds)
    (hrest : rest = [] ∨ ∃ c cs, rest = c :: cs ∧ c.isDigit = false)
    (hbound : digitsValAux x ds ≤ 2 ^ 63) :
    leadingInt (ds ++ rest) x = some (digitsValAux x ds, rest) := by
  induction ds generalizing x with
  | nil =>
    rcases hrest with rfl | ⟨c, cs, rfl, hc⟩
    · rfl
    · rw [List.nil_append]
      unfold leadingInt
      rw [if_pos (by simp [hc])]
      rfl
  | cons c ds ih =>
    have hc : c.isDigit = true := hds c (by simp)
    have hdigits : allDigits ds := fun c2 hc2 => hds c2 (by simp [hc2])
    rw [digitsValAux_cons] at hbound ⊢
    have hx2 : x * 10 + (c.toNat - 48) ≤ 2 ^ 63 :=
      le_trans (le_digitsValAux _ ds) hbound
    rw [List.cons_append]
    unfold leadingInt
    rw [if_neg (by simp [hc])]
    rw [if_neg (by
      have hdiv : x ≤ 2 ^ 63 / 10 :=
        (Nat.le_div_iff_mul_le (by norm_num)).mpr (by omega)
      omega)]
    rw [if_neg (by omega)]
    exact ih (x * 10 + (c.toNat - 48)) hdigits hbound

/-- `leadingFraction` consumes exactly a digit block, computing its
value and scale (small values never trip the overflow handling). -/
theorem leadingFraction_digits (ds rest : List Char) (x scale : Nat)
    (hds : allDigits ds)
    (hrest : rest = [] ∨ ∃ c cs, rest = c :: cs ∧ c.isDigit = false)
    (hbound : digitsValAux x ds ≤ 10 ^ 9) :
    leadingFraction (ds ++ rest) x scale false =
      (digitsValAux x ds, scale * 10 ^ ds.length, rest) := by
  induction ds generalizing x scale with
  | nil =>
    rcases hrest with rfl | ⟨c, cs, rfl, hc⟩
    · show (x, scale, []) = _
      simp only [digitsValAux_nil, List.length_nil, pow_zero, Nat.mul_one]
    · rw [List.nil_append]
      unfold leadingFraction
      rw [if_pos (by simp [hc])]
      simp only [digitsValAux_nil, List.length_nil, pow_zero, Nat.mul_one]
  | cons c ds ih =>
    have hc : c.isDigit = true := hds c (by simp)
    have hdigits : allDigits ds := fun c2 hc2 => hds c2 (by simp [hc2])
    rw [digitsValAux_cons] at hbound ⊢
    have hx2 : x * 10 + (c.toNat - 48) ≤ 10 ^ 9 :=
      le_trans (le_digitsValAux _ ds) hbound
    rw [List.cons_append]
    unfold leadingFraction
    rw [if_neg (by simp [hc]), if_neg (by norm_num), if_neg (by
      have : (2 ^ 63 - 1) / 10 = 922337203685477580 := by norm_num
      omega)]
    rw [if_neg (by omega)]
    rw [ih (x * 10 + (c.toNat - 48)) (scale * 10) hdigits hbound]
    rw [List.length_cons]
    ring_nf

/-- Unfolding equation of `digitsOf` for nonzero `v`. -/
theorem digitsOf_pos (v : Nat) (h : v ≠ 0) :
    digitsOf v = digitsOf (v / 10) ++ [Char.ofNat (48 + v % 10)] := by
  rw [digitsOf]
  simp [h]

theorem digitsOf_zero : digitsOf 0 = [] := by
  rw [digitsOf]
  simp

/-- `digitsOf` produces digits. -/
theorem allDigits_digitsOf (v : Nat) : allDigits (digitsOf v) := by
  induction v using Nat.strong_induction_on with
  | _ v ih =>
    by_cases h : v = 0
    · subst h
      rw [digitsOf_zero]
      intro c hc
      cases hc
    · rw [digitsOf_pos v h]
      intro c hc
      rcases List.mem_append.mp hc with hm | hm
      · exact ih (v / 10) (Nat.div_lt_self (Nat.pos_of_ne_zero h) (by norm_num)) c hm
      · rcases List.mem_singleton.mp hm with rfl
        exact digitChar_isDigit (v % 10) (Nat.mod_lt v (by norm_num))

/-- Value of `digitsOf` under an accumulator. -/
theorem digitsValAux_digitsOf (v : Nat) : ∀ x,
    digitsValAux x (digitsOf v) = x * 10 ^ (digitsOf v).length + v := by
  induction v using Nat.strong_induction_on with
  | _ v ih =>
    intro x
    by_cases h : v = 0
    · subst h
      rw [digitsOf_zero]
      simp [digitsValAux_nil]
    · rw [digitsOf_pos v h, digitsValAux_append, List.length_append]
      rw [ih (v / 10) (Nat.div_lt_self (Nat.pos_of_ne_zero h) (by norm_num)) x]
      rw [digitsValAux_cons, digitsValAux_nil]
      rw [digitChar_toNat (v % 10) (Nat.mod_lt v (by norm_num))]
      have hv : v / 10 * 10 + v % 10 = v := by omega
      simp only [List.length_singleton]
      ring_nf
      omega

theorem digitsOf_ne_nil (v : Nat) (h : v ≠ 0) : digitsOf v ≠ [] := by
  rw [digitsOf_pos v h]
  simp

/-- `fmtIntAux` writes exactly the decimal digits before the tail. -/
theorem fmtIntAux_eq (fuel : Nat) : ∀ v acc, v < 10 ^ fuel →
    fmtIntAux fuel v acc = digitsOf v ++ acc := by
  induction fuel with
  | zero =>
    intro v acc h
    have : v = 0 := by simpa using h
    subst this
    rw [digitsOf_zero]
    rfl
  | succ fuel ih =>
    intro v acc h
    by_cases hv : v = 0
    · subst hv
      rw [digitsOf_zero]
      simp [fmtIntAux]
    · unfold fmtIntAux
      rw [if_neg hv]
      have hlt : v / 10 < 10 ^ fuel := by
        have h10 : 10 ^ (fuel + 1) = 10 ^ fuel * 10 := by ring
        rw [h10] at h
        exact Nat.div_lt_of_lt_mul (by omega)
      rw [ih (v / 10) _ hlt, digitsOf_pos v hv]
      simp

/-- `fmtIntChars` in terms of `digitsOf`. -/
theorem fmtIntChars_eq (v : Nat) :
    fmtIntChars v = if v = 0 then ['0'] else digitsOf v := by
  unfold fmtIntChars
  by_cases h : v = 0
  · simp [h]
  · rw [if_neg h, if_neg h]
    have : v < 10 ^ (v + 1) :=
      lt_of_lt_of_le (Nat.lt_pow_self (by norm_num) v)
        (Nat.pow_le_pow_right (by norm_num) (by omega))
    rw [fmtIntAux_eq (v + 1) v [] this]
    simp

/-- `fmtIntChars` produces a non-empty digit string of value `v`. -/
theorem fmtIntChars_spec (v : Nat) :
    allDigits (fmtIntChars v) ∧ digitsValAux 0 (fmtIntChars v) = v ∧
      fmtIntChars v ≠ [] := by
  rw [fmtIntChars_eq]
  by_cases h : v = 0
  · subst h
    refine ⟨?_, by decide, by decide⟩
    intro c hc
    simp at hc
    subst hc
    decide
  · rw [if_neg h]
    refine ⟨allDigits_digitsOf v, ?_, digitsOf_ne_nil v h⟩
    rw [digitsValAux_digitsOf v 0]
    ring

/-- `padDigits` produces digits. -/
theorem allDigits_padDigits (p : Nat) : ∀ m, allDigits (padDigits p m) := by
  induction p with
  | zero =>
    intro m c hc
    cases hc
  | succ p ih =>
    intro m c hc
    rcases List.mem_append.mp hc with hm | hm
    · exact ih (m / 10) c hm
    · rcases List.mem_singleton.mp hm with rfl
      exact digitChar_isDigit (m % 10) (Nat.mod_lt m (by norm_num))

theorem length_padDigits (p : Nat) : ∀ m, (padDigits p m).length = p := by
  induction p with
  | zero => intro m; rfl
  | succ p ih =>
    intro m
    unfold padDigits
    rw [List.length_append, ih (m / 10)]
    simp

/-- Value of `padDigits`: the low `p` digits of `m`. -/
theorem digitsValAux_padDigits (p : Nat) : ∀ m x,
    digitsValAux x (padDigits p m) = x * 10 ^ p + m % 10 ^ p := by
  induction p with
  | zero =>
    intro m x
    simp [padDigits, digitsValAux_nil, Nat.mod_one]
  | succ p ih =>
    intro m x
    unfold padDigits
    rw [digitsValAux_append, ih (m / 10) x, digitsValAux_cons, digitsValAux_nil]
    rw [digitChar_toNat (m % 10) (Nat.mod_lt m (by norm_num))]
    have hmm : m % (10 ^ p * 10) = m % 10 + 10 * (m / 10 % 10 ^ p) := by
      have h0 : m % (10 * 10 ^ p) = m % 10 + 10 * (m / 10 % 10 ^ p) := Nat.mod_mul
      have h1 : 10 ^ p * 10 = 10 * 10 ^ p := by ring
      rw [h1, h0]
    have hpow : 10 ^ (p + 1) = 10 ^ p * 10 := by ring
    rw [hpow, hmm]
    ring

theorem digitsValAux_replicate_zero (t : Nat) : ∀ x,
    digitsValAux x (List.replicate t '0') = x * 10 ^ t := by
  induction t with
  | zero => intro x; simp [digitsValAux_nil]
  | succ t ih =>
    intro x
    rw [List.replicate_succ, digitsValAux_cons, ih]
    have : ('0' : Char).toNat - 48 = 0 := by decide
    rw [this]
    ring

theorem trimZeros_nil : trimZeros [] = [] := rfl

/-- Trimming a trailing character. -/
theorem trimZeros_snoc (xs : List Char) (c : Char) :
    trimZeros (xs ++ [c]) = if (c == '0') = true then trimZeros xs else xs ++ [c] := by
  unfold trimZeros
  rw [List.reverse_append]
  simp only [List.reverse_singleton, List.singleton_append, List.dropWhile_cons]
  by_cases h : (c == '0') = true
  · rw [if_pos h, if_pos h]
  · rw [if_neg h, if_neg h]
    simp

/-- Every digit string is its trimmed part followed by zeros. -/
theorem trimZeros_exists (ds : List Char) :
    ∃ t, ds = trimZeros ds ++ List.replicate t '0' := by
  induction ds using List.reverseRecOn with
  | nil => exact ⟨0, rfl⟩
  | append_singleton xs c ih =>
    rcases ih with ⟨t, ht⟩
    rw [trimZeros_snoc]
    by_cases h : (c == '0') = true
    · refine ⟨t + 1, ?_⟩
      rw [if_pos h]
      have hc : c = '0' := by simpa using h
      subst hc
      nth_rewrite 1 [ht]
      rw [List.append_assoc, ← List.replicate_succ']
    · exact ⟨0, by rw [if_neg h]; simp⟩

/-- `fmtFracAux` once printing has started: all remaining digits are
emitted, zero-padded. -/
theorem fmtFracAux_true (prec : Nat) : ∀ v acc,
    fmtFracAux prec v true acc = ('.' :: (padDigits prec v ++ acc), v / 10 ^ prec) := by
  induction prec with
  | zero =>
    intro v acc
    simp [fmtFracAux, padDigits]
  | succ prec ih =>
    intro v acc
    have hstep : fmtFracAux (prec + 1) v true acc =
        fmtFracAux prec (v / 10) true (Char.ofNat (48 + v % 10) :: acc) := by
      show (let digit := v % 10
            let printing2 := true || digit != 0
            let acc2 := if printing2 then Char.ofNat (48 + digit) :: acc else acc
            fmtFracAux prec (v / 10) printing2 acc2) = _
      simp
    have hpad : padDigits (prec + 1) v =
        padDigits prec (v / 10) ++ [Char.ofNat (48 + v % 10)] := rfl
    have hdiv : v / 10 / 10 ^ prec = v / 10 ^ (prec + 1) := by
      rw [Nat.div_div_eq_div_mul]
      ring_nf
    rw [hstep, ih (v / 10) (Char.ofNat (48 + v % 10) :: acc), hpad, hdiv]
    simp

/-- `fmtFracAux` before printing starts: trailing zeros are skipped, and
the dot appears only if some digit is non-zero. -/
theorem fmtFracAux_false (prec : Nat) : ∀ v acc,
    fmtFracAux prec v false acc =
      (if trimZeros (padDigits prec v) = [] then acc
       else '.' :: (trimZeros (padDigits prec v) ++ acc), v / 10 ^ prec) := by
  induction prec with
  | zero =>
    intro v acc
    simp [fmtFracAux, padDigits, trimZeros_nil]
  | succ prec ih =>
    intro v acc
    have hd : v % 10 < 10 := Nat.mod_lt v (by norm_num)
    have hpad : padDigits (prec + 1) v =
        padDigits prec (v / 10) ++ [Char.ofNat (48 + v % 10)] := rfl
    have hdiv : v / 10 / 10 ^ prec = v / 10 ^ (prec + 1) := by
      rw [Nat.div_div_eq_div_mul]
      ring_nf
    by_cases h0 : v % 10 = 0
    · have hch : Char.ofNat (48 + v % 10) = '0' := by
        rw [h0]
      have hstep : fmtFracAux (prec + 1) v false acc = fmtFracAux prec (v / 10) false acc := by
        show (let digit := v % 10
              let printing2 := false || digit != 0
              let acc2 := if printing2 then Char.ofNat (48 + digit) :: acc else acc
              fmtFracAux prec (v / 10) printing2 acc2) = _
        simp [h0]
      rw [hstep, ih (v / 10) acc, hpad, trimZeros_snoc, hch, hdiv]
      simp
    · have hbne : (v % 10 != 0) = true := by simp [h0]
      have hstep : fmtFracAux (prec + 1) v false acc =
          fmtFracAux prec (v / 10) true (Char.ofNat (48 + v % 10) :: acc) := by
        show (let digit := v % 10
              let printing2 := false || digit != 0
              let acc2 := if printing2 then Char.ofNat (48 + digit) :: acc else acc
              fmtFracAux prec (v / 10) printing2 acc2) = _
        simp [hbne]
      have hne : (Char.ofNat (48 + v % 10) == '0') = false := by
        rw [digitChar_beq_zero (v % 10) hd]
        simp [h0]
      rw [hstep, fmtFracAux_true prec (v / 10) _, hpad, trimZeros_snoc, hne, hdiv]
      have hnonnil : ¬ (padDigits prec (v / 10) ++ [Char.ofNat (48 + v % 10)] = []) := by
        simp
      rw [if_neg (by simpa using hnonnil)]
      simp

/-- What `fmtFrac` guarantees: a well-formed fraction block whose
contribution reconstructs the low digits exactly. -/
theorem fmtFrac_spec (v prec : Nat) (hprec : prec ≤ 9) :
    ∃ fval scale, FracOk (fmtFrac v prec).1 fval scale ∧
      (fmtFrac v prec).2 = v / 10 ^ prec ∧
      fval * 10 ^ prec / scale = v % 10 ^ prec := by
  unfold fmtFrac
  rw [fmtFracAux_false prec v []]
  set tr := trimZeros (padDigits prec v) with htr
  rcases trimZeros_exists (padDigits prec v) with ⟨t, ht⟩
  have hlen : (padDigits prec v).length = prec := length_padDigits prec v
  have hlenb : (padDigits prec v).length = tr.length + t := by
    rw [ht]
    simp [List.length_append]
  have hlen2 : tr.length + t = prec := by omega
  have hvalpad : digitsValAux 0 (padDigits prec v) = v % 10 ^ prec := by
    rw [digitsValAux_padDigits prec v 0]
    ring_nf
  have hvaltrim : digitsValAux 0 tr * 10 ^ t = v % 10 ^ prec := by
    rw [← hvalpad, ht, digitsValAux_append, digitsValAux_replicate_zero]
  by_cases hnil : tr = []
  · refine ⟨0, 1, Or.inl ⟨by simp [hnil], rfl, rfl⟩, by simp, ?_⟩
    rw [hnil] at hvaltrim
    simp only [digitsValAux_nil, Nat.zero_mul] at hvaltrim
    simp [← hvaltrim]
  · have halltr : allDigits tr := by
      intro c hc
      have hmem : c ∈ padDigits prec v := by
        rw [ht]
        exact List.mem_append.mpr (Or.inl hc)
      exact allDigits_padDigits prec v c hmem
    have hb : digitsValAux 0 tr ≤ 10 ^ 9 := by
      have h1 : digitsValAux 0 tr < (0 + 1) * 10 ^ tr.length := digitsValAux_lt 0 tr halltr
      have h2 : tr.length ≤ 9 := by omega
      have h3 : (10 : Nat) ^ tr.length ≤ 10 ^ 9 := Nat.pow_le_pow_right (by norm_num) h2
      omega
    refine ⟨digitsValAux 0 tr, 10 ^ tr.length,
      Or.inr ⟨tr, by rw [if_neg hnil]; simp, hnil, halltr, rfl, rfl, hb⟩, by simp, ?_⟩
    have hsplit : (10 : Nat) ^ prec = 10 ^ tr.length * 10 ^ t := by
      rw [← pow_add]
      congr 1
      omega
    have hpos : 0 < (10 : Nat) ^ tr.length := pow_pos (by norm_num) _
    conv_lhs => rw [hsplit]
    calc digitsValAux 0 tr * (10 ^ tr.length * 10 ^ t) / 10 ^ tr.length
        = 10 ^ tr.length * (digitsValAux 0 tr * 10 ^ t) / 10 ^ tr.length := by ring_nf
      _ = digitsValAux 0 tr * 10 ^ t := Nat.mul_div_cancel_left _ hpos
      _ = v % 10 ^ prec := hvaltrim

/-- A character failing `isDigitOrDot` is no digit. -/
theorem isDigit_eq_false_of_not_dot (c : Char) (h : isDigitOrDot c = false) :
    c.isDigit = false := by
  unfold isDigitOrDot at h
  rcases Bool.or_eq_false_iff.mp h with ⟨_, h2⟩
  exact h2

/-- The unit characters are exactly what `takeWhile` grabs. -/
theorem takeWhile_unit (unitcs rest : List Char)
    (hund : ∀ c ∈ unitcs, isDigitOrDot c = false)
    (hrest : rest = [] ∨ ∃ c cs, rest = c :: cs ∧ c.isDigit = true) :
    (unitcs ++ rest).takeWhile (fun c => ¬ isDigitOrDot c) = unitcs := by
  induction unitcs with
  | nil =>
    rcases hrest with rfl | ⟨c, cs, rfl, hc⟩
    · rfl
    · rw [List.nil_append]
      rw [List.takeWhile_cons]
      rw [if_neg (by simp [isDigitOrDot_of_isDigit c hc])]
  | cons x a ih =>
    rw [List.cons_append, List.takeWhile_cons]
    rw [if_pos (by simp [hund x (by simp)])]
    rw [ih (fun c hc => hund c (by simp [hc]))]

/-- One `number[.fraction]unit` group of a formatted duration advances
the parse loop by the group's value. -/
theorem parseLoop_group (fuel n fval scale unit d0 : Nat)
    (fds unitcs rest : List Char)
    (hfrac : FracOk fds fval scale)
    (hunit : unitMap (String.mk unitcs) = some unit)
    (hune : unitcs ≠ [])
    (hund : ∀ c ∈ unitcs, isDigitOrDot c = false)
    (hrest : rest = [] ∨ ∃ c cs, rest = c :: cs ∧ c.isDigit = true)
    (hupos : 0 < unit)
    (hn : n * unit ≤ 2 ^ 63)
    (hval : d0 + (n * unit + fval * unit / scale) ≤ 2 ^ 63) :
    parseDurationLoop (fuel + 1) (fmtIntChars n ++ (fds ++ (unitcs ++ rest))) d0 =
      parseDurationLoop fuel rest (d0 + (n * unit + fval * unit / scale)) := by
  obtain ⟨hdig, hvaln, hnnil⟩ := fmtIntChars_spec n
  -- the digit block parses to n
  have hrest2 : fds ++ (unitcs ++ rest) = [] ∨
      ∃ c cs, fds ++ (unitcs ++ rest) = c :: cs ∧ c.isDigit = false := by
    right
    rcases hfrac with ⟨rfl, _, _⟩ | ⟨ft, rfl, _⟩
    · rcases hcs : unitcs with _ | ⟨u0, us⟩
      · exact absurd hcs hune
      · exact ⟨u0, us ++ rest, by simp,
          isDigit_eq_false_of_not_dot u0 (hund u0 (by rw [hcs]; simp))⟩
    · exact ⟨'.', ft ++ (unitcs ++ rest), by simp, by decide⟩
  have hnle : n ≤ 2 ^ 63 := le_trans (Nat.le_mul_of_pos_right n hupos) hn
  have hli : leadingInt (fmtIntChars n ++ (fds ++ (unitcs ++ rest))) 0 =
      some (n, fds ++ (unitcs ++ rest)) := by
    have := leadingInt_digits (fmtIntChars n) (fds ++ (unitcs ++ rest)) 0 hdig hrest2
      (by rw [hvaln]; exact hnle)
    rw [hvaln] at this
    exact this
  -- head of the input is a digit
  rcases hfi : fmtIntChars n with _ | ⟨c0, cs0⟩
  · exact absurd hfi hnnil
  have hc0 : isDigitOrDot c0 = true :=
    isDigitOrDot_of_isDigit c0 (hdig c0 (by rw [hfi]; simp))
  rw [hfi] at hli
  rw [List.cons_append]
  conv_lhs => rw [parseDurationLoop.eq_def]
  simp only [← List.cons_append, hli, hc0]
  -- common facts
  have hlenne : ¬ (unitcs.length = 0) := by
    simpa [List.length_eq_zero] using hune
  have hdivle : ¬ (n > 2 ^ 63 / unit) := by
    have : n ≤ 2 ^ 63 / unit := (Nat.le_div_iff_mul_le hupos).mpr hn
    omega
  have htw : (unitcs ++ rest).takeWhile (fun c => ¬ isDigitOrDot c) = unitcs :=
    takeWhile_unit unitcs rest hund hrest
  have hpre : ((c0 :: cs0 ++ (fds ++ (unitcs ++ rest))).length !=
      (fds ++ (unitcs ++ rest)).length) = true := by
    simp only [bne_iff_ne, ne_eq, List.length_cons, List.length_append]
    omega
  rcases hfrac with ⟨rfl, rfl, rfl⟩ | ⟨ft, rfl, hftne, hftdig, hfvaleq, rfl, hfb⟩
  · -- no fraction block
    rcases hcs : unitcs with _ | ⟨u0, us⟩
    · exact absurd hcs hune
    subst hcs
    have hu0 : ¬ (u0 = '.') := by
      have := hund u0 (by simp)
      intro hcon
      subst hcon
      simp [isDigitOrDot] at this
    simp only [List.nil_append, List.cons_append] at hpre ⊢
    simp only [if_neg hu0, hpre]
    simp only [← List.cons_append, htw, if_neg hlenne, hunit]
    simp only [if_neg hdivle]
    simp only [gt_iff_lt, Nat.lt_irrefl, if_false, Nat.zero_mul, Nat.zero_div,
      Nat.add_zero, Bool.true_eq_false, false_and, if_false]
    have hval2 : d0 + n * unit ≤ 2 ^ 63 := by simpa using hval
    rw [List.drop_left]
    rw [if_neg (show ¬ (2 ^ 63 < d0 + n * unit) from by omega)]
    simp
  · -- fraction block '.' :: ft
    rcases hcs : unitcs with _ | ⟨u0, us⟩
    · exact absurd hcs hune
    subst hcs
    have hftrest : ∃ c cs, (u0 :: us) ++ rest = c :: cs ∧ c.isDigit = false :=
      ⟨u0, us ++ rest, by simp, isDigit_eq_false_of_not_dot u0 (hund u0 (by simp))⟩
    have hlf : leadingFraction (ft ++ u0 :: (us ++ rest)) 0 1 false =
        (fval, 1 * 10 ^ ft.length, u0 :: (us ++ rest)) := by
      have h0 := leadingFraction_digits ft (u0 :: us ++ rest) 0 1 hftdig
        (Or.inr hftrest) (by rw [hfvaleq]; exact hfb)
      rw [hfvaleq] at h0
      simpa using h0
    simp only [List.cons_append] at hpre htw ⊢
    simp only [hlf, hpre]
    simp only [if_true, Bool.true_eq_false, false_and, if_false, htw, if_neg hlenne, hunit]
    simp only [if_neg hdivle]
    have hv2 : (if fval > 0 then n * unit + fval * unit / (1 * 10 ^ ft.length) else n * unit) =
        n * unit + fval * unit / 10 ^ ft.length := by
      rcases Nat.eq_zero_or_pos fval with hf | hf
      · subst hf
        simp
      · rw [if_pos hf, Nat.one_mul]
    rw [hv2]
    rw [if_neg (show ¬ (fval > 0 ∧ n * unit + fval * unit / 10 ^ ft.length > 2 ^ 63) from by
      rintro ⟨h1, h2⟩
      omega)]
    rw [if_neg (show ¬ (d0 + (n * unit + fval * unit / 10 ^ ft.length) > 2 ^ 63) from by omega)]
    rw [← List.cons_append, List.drop_left]
    simp

theorem parseLoop_nil (fuel d : Nat) : parseDurationLoop (fuel + 1) [] d = some d := rfl

/-- A list led by `fmtIntChars` starts with a digit. -/
theorem fmtIntChars_head_digit (n : Nat) (tail : List Char) :
    ∃ c cs, fmtIntChars n ++ tail = c :: cs ∧ c.isDigit = true := by
  obtain ⟨hdig, _, hne⟩ := fmtIntChars_spec n
  rcases hfi : fmtIntChars n with _ | ⟨c0, cs0⟩
  · exact absurd hfi hne
  · exact ⟨c0, cs0 ++ tail, by simp, hdig c0 (by rw [hfi]; simp)⟩

theorem fmtIntChars_length_pos (n : Nat) : 1 ≤ (fmtIntChars n).length :=
  List.length_pos.mpr (fmtIntChars_spec n).2.2

/-- The formatted body of a positive `uint64` duration parses back to
its value, given enough fuel. -/
theorem parseLoop_body (u : Nat) (h1 : 1 ≤ u) (h2 : u ≤ 2 ^ 63) (fuel : Nat)
    (hfuel : (durationBodyChars u).length < fuel) :
    parseDurationLoop fuel (durationBodyChars u) 0 = some u := by
  by_cases hsub : u < 1000000000
  · by_cases hns : u < 1000
    · -- nanoseconds
      have hbody : durationBodyChars u = fmtIntChars u ++ ([] ++ (['n', 's'] ++ [])) := by
        unfold durationBodyChars
        rw [if_pos hsub, if_neg (by omega), if_pos hns]
        simp
      rw [hbody] at hfuel ⊢
      have hlen : 1 ≤ (fmtIntChars u).length := fmtIntChars_length_pos u
      obtain ⟨f, rfl⟩ : ∃ f, fuel = f + 1 + 1 := by
        refine ⟨fuel - 2, ?_⟩
        simp [List.length_append] at hfuel
        omega
      rw [parseLoop_group (f + 1) u 0 1 1 0 [] ['n', 's'] []
        (Or.inl ⟨rfl, rfl, rfl⟩) (by decide) (by decide) (by decide)
        (Or.inl rfl) (by decide) (by omega) (by omega)]
      rw [parseLoop_nil]
      congr 1
      omega
    · by_cases hus : u < 1000000
      · -- microseconds
        obtain ⟨fval, scale, hfrak, hq, hrec⟩ := fmtFrac_spec u 3 (by norm_num)
        norm_num at hrec hq
        have hbody : durationBodyChars u =
            fmtIntChars (u / 1000) ++ ((fmtFrac u 3).1 ++ (['µ', 's'] ++ [])) := by
          unfold durationBodyChars
          rw [if_pos hsub, if_neg (by omega), if_neg (by omega), if_pos hus]
          show fmtIntChars (fmtFrac u 3).2 ++ (fmtFrac u 3).1 ++ ['µ', 's'] = _
          rw [hq]
          simp
        rw [hbody] at hfuel ⊢
        have hlen : 1 ≤ (fmtIntChars (u / 1000)).length := fmtIntChars_length_pos _
        obtain ⟨f, rfl⟩ : ∃ f, fuel = f + 1 + 1 := by
          refine ⟨fuel - 2, ?_⟩
          simp [List.length_append] at hfuel
          omega
        rw [parseLoop_group (f + 1) (u / 1000) fval scale 1000 0 (fmtFrac u 3).1
          ['µ', 's'] [] hfrak (by decide) (by decide) (by decide)
          (Or.inl rfl) (by decide) (by omega) (by rw [hrec]; omega)]
        rw [parseLoop_nil]
        congr 1
        rw [hrec]
        omega
      · -- milliseconds
        obtain ⟨fval, scale, hfrak, hq, hrec⟩ := fmtFrac_spec u 6 (by norm_num)
        norm_num at hrec hq
        have hbody : durationBodyChars u =
            fmtIntChars (u / 1000000) ++ ((fmtFrac u 6).1 ++ (['m', 's'] ++ [])) := by
          unfold durationBodyChars
          rw [if_pos hsub, if_neg (by omega), if_neg (by omega), if_neg hus]
          show fmtIntChars (fmtFrac u 6).2 ++ (fmtFrac u 6).1 ++ ['m', 's'] = _
          rw [hq]
          simp
        rw [hbody] at hfuel ⊢
        have hlen : 1 ≤ (fmtIntChars (u / 1000000)).length := fmtIntChars_length_pos _
        obtain ⟨f, rfl⟩ : ∃ f, fuel = f + 1 + 1 := by
          refine ⟨fuel - 2, ?_⟩
          simp [List.length_append] at hfuel
          omega
        rw [parseLoop_group (f + 1) (u / 1000000) fval scale 1000000 0 (fmtFrac u 6).1
          ['m', 's'] [] hfrak (by decide) (by decide) (by decide)
          (Or.inl rfl) (by decide) (by omega) (by rw [hrec]; omega)]
        rw [parseLoop_nil]
        congr 1
        rw [hrec]
        omega
  · -- at least one second
    obtain ⟨fval, scale, hfrak, hq, hrec⟩ := fmtFrac_spec u 9 (by norm_num)
    norm_num at hrec hq
    by_cases hmin : u / 1000000000 < 60
    · -- seconds only
      have hbody : durationBodyChars u =
          fmtIntChars (u / 1000000000 % 60) ++ ((fmtFrac u 9).1 ++ (['s'] ++ [])) := by
        unfold durationBodyChars
        rw [if_neg (by omega)]
        simp only [hq]
        rw [if_pos (show u / 1000000000 / 60 = 0 from by omega)]
        simp
      rw [hbody] at hfuel ⊢
      have hlen : 1 ≤ (fmtIntChars (u / 1000000000 % 60)).length := fmtIntChars_length_pos _
      obtain ⟨f, rfl⟩ : ∃ f, fuel = f + 1 + 1 := by
        refine ⟨fuel - 2, ?_⟩
        simp [List.length_append] at hfuel
        omega
      rw [parseLoop_group (f + 1) (u / 1000000000 % 60) fval scale 1000000000 0
        (fmtFrac u 9).1 ['s'] [] hfrak (by decide) (by decide) (by decide)
        (Or.inl rfl) (by decide) (by omega) (by rw [hrec]; omega)]
      rw [parseLoop_nil]
      congr 1
      rw [hrec]
      omega
    · by_cases hhr : u / 1000000000 / 60 < 60
      · -- minutes and seconds
        have hbody : durationBodyChars u =
            fmtIntChars (u / 1000000000 / 60 % 60) ++ ([] ++ (['m'] ++
              (fmtIntChars (u / 1000000000 % 60) ++ ((fmtFrac u 9).1 ++ (['s'] ++ []))))) := by
          unfold durationBodyChars
          rw [if_neg (by omega)]
          simp only [hq]
          rw [if_neg (show ¬ u / 1000000000 / 60 = 0 from by omega),
            if_pos (show u / 1000000000 / 60 / 60 = 0 from by omega)]
          simp
        rw [hbody] at hfuel ⊢
        have hlen1 : 1 ≤ (fmtIntChars (u / 1000000000 / 60 % 60)).length :=
          fmtIntChars_length_pos _
        have hlen2 : 1 ≤ (fmtIntChars (u / 1000000000 % 60)).length :=
          fmtIntChars_length_pos _
        obtain ⟨f, rfl⟩ : ∃ f, fuel = f + 1 + 1 + 1 := by
          refine ⟨fuel - 3, ?_⟩
          simp [List.length_append] at hfuel
          omega
        rw [parseLoop_group (f + 1 + 1) (u / 1000000000 / 60 % 60) 0 1 60000000000 0
          [] ['m'] (fmtIntChars (u / 1000000000 % 60) ++ ((fmtFrac u 9).1 ++ (['s'] ++ [])))
          (Or.inl ⟨rfl, rfl, rfl⟩) (by decide) (by decide) (by decide)
          (Or.inr (fmtIntChars_head_digit _ _)) (by decide) (by omega) (by omega)]
        rw [parseLoop_group (f + 1) (u / 1000000000 % 60) fval scale 1000000000
          (0 + (u / 1000000000 / 60 % 60 * 60000000000 + 0 * 60000000000 / 1))
          (fmtFrac u 9).1 ['s'] [] hfrak (by decide) (by decide) (by decide)
          (Or.inl rfl) (by decide) (by omega) (by rw [hrec]; omega)]
        rw [parseLoop_nil]
        congr 1
        rw [hrec]
        omega
      · -- hours, minutes and seconds
        have hbody : durationBodyChars u =
            fmtIntChars (u / 1000000000 / 60 / 60) ++ ([] ++ (['h'] ++
              (fmtIntChars (u / 1000000000 / 60 % 60) ++ ([] ++ (['m'] ++
                (fmtIntChars (u / 1000000000 % 60) ++
                  ((fmtFrac u 9).1 ++ (['s'] ++ [])))))))) := by
          unfold durationBodyChars
          rw [if_neg (by omega)]
          simp only [hq]
          rw [if_neg (show ¬ u / 1000000000 / 60 = 0 from by omega),
            if_neg (show ¬ u / 1000000000 / 60 / 60 = 0 from by omega)]
          simp
        rw [hbody] at hfuel ⊢
        have hlen1 : 1 ≤ (fmtIntChars (u / 1000000000 / 60 / 60)).length :=
          fmtIntChars_length_pos _
        have hlen2 : 1 ≤ (fmtIntChars (u / 1000000000 / 60 % 60)).length :=
          fmtIntChars_length_pos _
        have hlen3 : 1 ≤ (fmtIntChars (u / 1000000000 % 60)).length :=
          fmtIntChars_length_pos _
        obtain ⟨f, rfl⟩ : ∃ f, fuel = f + 1 + 1 + 1 + 1 := by
          refine ⟨fuel - 4, ?_⟩
          simp [List.length_append] at hfuel
          omega
        rw [parseLoop_group (f + 1 + 1 + 1) (u / 1000000000 / 60 / 60) 0 1 3600000000000 0
          [] ['h']
          (fmtIntChars (u / 1000000000 / 60 % 60) ++ ([] ++ (['m'] ++
            (fmtIntChars (u / 1000000000 % 60) ++ ((fmtFrac u 9).1 ++ (['s'] ++ []))))))
          (Or.inl ⟨rfl, rfl, rfl⟩) (by decide) (by decide) (by decide)
          (Or.inr (fmtIntChars_head_digit _ _)) (by decide) (by omega) (by omega)]
        rw [parseLoop_group (f + 1 + 1) (u / 1000000000 / 60 % 60) 0 1 60000000000
          (0 + (u / 1000000000 / 60 / 60 * 3600000000000 + 0 * 3600000000000 / 1))
          [] ['m'] (fmtIntChars (u / 1000000000 % 60) ++ ((fmtFrac u 9).1 ++ (['s'] ++ [])))
          (Or.inl ⟨rfl, rfl, rfl⟩) (by decide) (by decide) (by decide)
          (Or.inr (fmtIntChars_head_digit _ _)) (by decide) (by omega) (by omega)]
        rw [parseLoop_group (f + 1) (u / 1000000000 % 60) fval scale 1000000000
          (0 + (u / 1000000000 / 60 / 60 * 3600000000000 + 0 * 3600000000000 / 1) +
            (u / 1000000000 / 60 % 60 * 60000000000 + 0 * 60000000000 / 1))
          (fmtFrac u 9).1 ['s'] [] hfrak (by decide) (by decide) (by decide)
          (Or.inl rfl) (by decide) (by omega) (by rw [hrec]; omega)]
        rw [parseLoop_nil]
        congr 1
        rw [hrec]
        omega

theorem durSign_digit (c : Char) (cs : List Char) (hc : c.isDigit = true) :
    durSign (c :: cs) = (false, c :: cs) := by
  unfold durSign
  have h1 : c ≠ '-' := by rintro rfl; exact absurd hc (by decide)
  have h2 : c ≠ '+' := by rintro rfl; exact absurd hc (by decide)
  split
  · rename_i heq; injection heq with heq1 _; exact absurd heq1 h1
  · rename_i heq; injection heq with heq1 _; exact absurd heq1 h2
  · rfl

/-- `parseDuration` on an unsigned, non-`"0"` input reduces to the main
loop followed by the positive-overflow check. -/
theorem parseDuration_mk_digit (c : Char) (cs : List Char) (hc : c.isDigit = true)
    (hne : ¬ (c :: cs = ['0'])) :
    parseDuration (String.mk (c :: cs)) =
      (match parseDurationLoop ((c :: cs).length + 1) (c :: cs) 0 with
      | none => none
      | some d => if d > 2 ^ 63 - 1 then none else some (d : Int)) := by
  unfold parseDuration
  dsimp only
  rw [durSign_digit c cs hc]
  rw [if_neg hne, if_neg (by simp)]
  simp

/-- `parseDuration` on a `'-'`-signed input reduces to the main loop
followed by negation. -/
theorem parseDuration_mk_neg (l : List Char) (hne : ¬ (l = ['0'])) (hnil : ¬ (l = [])) :
    parseDuration (String.mk ('-' :: l)) =
      (match parseDurationLoop (l.length + 1) l 0 with
      | none => none
      | some d => some (-(d : Int))) := by
  unfold parseDuration
  dsimp only
  rw [show durSign ('-' :: l) = (true, l) from rfl]
  rw [if_neg hne, if_neg hnil]
  simp

/-- The parse loop's accumulator never exceeds `2^63`: every step is
guarded by the `d2 > 1<<63` overflow check. -/
theorem parseLoop_le (fuel : Nat) :
    ∀ s d0 d, d0 ≤ 2 ^ 63 → parseDurationLoop fuel s d0 = some d → d ≤ 2 ^ 63 := by
  induction fuel with
  | zero =>
    intro s d0 d _ h
    rw [parseDurationLoop.eq_def] at h
    cases h
  | succ f ih =>
    intro s d0 d h0 h
    rw [parseDurationLoop.eq_def] at h
    rcases s with _ | ⟨c0, s2⟩
    · rw [Option.some_inj] at h
      omega
    · dsimp only at h
      iterate 9 (all_goals try split at h)
      all_goals
        first
        | cases h
        | exact ih _ _ _ (by omega) h

/-- Every value `parseDuration` accepts lies in the signed 64-bit range. -/
theorem parseDuration_range (s : String) (d : Int) (h : parseDuration s = some d) :
    -(2 ^ 63) ≤ d ∧ d ≤ 2 ^ 63 - 1 := by
  unfold parseDuration at h
  dsimp only at h
  by_cases h1 : (durSign s.data).2 = ['0']
  · rw [if_pos h1, Option.some_inj] at h
    omega
  · rw [if_neg h1] at h
    by_cases h2 : (durSign s.data).2 = []
    · rw [if_pos h2] at h
      cases h
    · rw [if_neg h2] at h
      rcases hdv : parseDurationLoop ((durSign s.data).2.length + 1) (durSign s.data).2 0
          with _ | dv
      · rw [hdv] at h
        cases h
      · rw [hdv] at h
        dsimp only at h
        have hle : dv ≤ 2 ^ 63 := parseLoop_le _ _ _ _ (by omega) hdv
        by_cases hneg : (durSign s.data).1 = true
        · rw [if_pos hneg, Option.some_inj] at h
          omega
        · rw [if_neg hneg] at h
          by_cases hbig : dv > 2 ^ 63 - 1
          · rw [if_pos hbig] at h
            cases h
          · rw [if_neg hbig, Option.some_inj] at h
            omega

/-- Every positive formatted body starts with an integer part followed
by a non-empty tail. -/
theorem durationBodyChars_split (u : Nat) (h1 : 1 ≤ u) :
    ∃ n tail, durationBodyChars u = fmtIntChars n ++ tail ∧ tail ≠ [] := by
  by_cases hsub : u < 1000000000
  · by_cases hns : u < 1000
    · refine ⟨u, ['n', 's'], ?_, by simp⟩
      unfold durationBodyChars
      rw [if_pos hsub, if_neg (by omega), if_pos hns]
    · by_cases hus : u < 1000000
      · refine ⟨(fmtFrac u 3).2, (fmtFrac u 3).1 ++ ['µ', 's'], ?_, by simp⟩
        unfold durationBodyChars
        rw [if_pos hsub, if_neg (by omega), if_neg (by omega), if_pos hus]
        show fmtIntChars (fmtFrac u 3).2 ++ (fmtFrac u 3).1 ++ ['µ', 's'] = _
        simp
      · refine ⟨(fmtFrac u 6).2, (fmtFrac u 6).1 ++ ['m', 's'], ?_, by simp⟩
        unfold durationBodyChars
        rw [if_pos hsub, if_neg (by omega), if_neg (by omega), if_neg hus]
        show fmtIntChars (fmtFrac u 6).2 ++ (fmtFrac u 6).1 ++ ['m', 's'] = _
        simp
  · by_cases hm : (fmtFrac u 9).2 / 60 = 0
    · refine ⟨(fmtFrac u 9).2 % 60, (fmtFrac u 9).1 ++ ['s'], ?_, by simp⟩
      unfold durationBodyChars
      rw [if_neg (by omega)]
      simp only [if_pos hm, List.append_assoc]
    · by_cases hh : (fmtFrac u 9).2 / 60 / 60 = 0
      · refine ⟨(fmtFrac u 9).2 / 60 % 60,
          ['m'] ++ (fmtIntChars ((fmtFrac u 9).2 % 60) ++ (fmtFrac u 9).1 ++ ['s']),
          ?_, by simp⟩
        unfold durationBodyChars
        rw [if_neg (by omega)]
        simp only [if_neg hm, if_pos hh, List.append_assoc]
      · refine ⟨(fmtFrac u 9).2 / 60 / 60,
          ['h'] ++ (fmtIntChars ((fmtFrac u 9).2 / 60 % 60) ++ ['m'] ++
            (fmtIntChars ((fmtFrac u 9).2 % 60) ++ (fmtFrac u 9).1 ++ ['s'])),
          ?_, by simp⟩
        unfold durationBodyChars
        rw [if_neg (by omega)]
        simp only [if_neg hm, if_neg hh, List.append_assoc]

/-- Every positive formatted body is a digit followed by at least one
more character. -/
theorem durationBodyChars_shape (u : Nat) (h1 : 1 ≤ u) :
    ∃ c cs, durationBodyChars u = c :: cs ∧ c.isDigit = true ∧ cs ≠ [] := by
  obtain ⟨n, tail, heq, hne⟩ := durationBodyChars_split u h1
  obtain ⟨c, cs, hcs, hdig⟩ := fmtIntChars_head_digit n tail
  refine ⟨c, cs, by rw [heq]; exact hcs, hdig, ?_⟩
  intro hnil
  have hlc := congrArg List.length hcs
  simp [List.length_append, hnil] at hlc
  have hfl := fmtIntChars_length_pos n
  have htl : 0 < tail.length := List.length_pos.mpr hne
  omega

/-- `String` of an in-range duration value parses back to the value. -/
theorem parse_durationString (d : Int) (hlo : -(2 ^ 63) ≤ d) (hhi : d ≤ 2 ^ 63 - 1) :
    parseDuration (durationString d) = some d := by
  rcases lt_trichotomy d 0 with hneg | rfl | hpos
  · have hu1 : 1 ≤ d.natAbs := by omega
    have hu2 : d.natAbs ≤ 2 ^ 63 := by omega
    obtain ⟨c, cs, hcs, hdig, hcsne⟩ := durationBodyChars_shape d.natAbs hu1
    have hds : durationString d = String.mk ('-' :: durationBodyChars d.natAbs) := by
      unfold durationString durationChars
      rw [if_pos hneg]
    have hne0 : ¬ (durationBodyChars d.natAbs = ['0']) := by
      rw [hcs]
      intro hx
      injection hx with _ hx2
      exact hcsne hx2
    have hnil : ¬ (durationBodyChars d.natAbs = []) := by
      rw [hcs]
      simp
    rw [hds, parseDuration_mk_neg _ hne0 hnil,
      parseLoop_body d.natAbs hu1 hu2 _ (by omega)]
    show some (-(d.natAbs : Int)) = some d
    rw [Option.some_inj]
    omega
  · decide
  · have hu1 : 1 ≤ d.natAbs := by omega
    have hu2 : d.natAbs ≤ 2 ^ 63 := by omega
    obtain ⟨c, cs, hcs, hdig, hcsne⟩ := durationBodyChars_shape d.natAbs hu1
    have hds : durationString d = String.mk (c :: cs) := by
      unfold durationString durationChars
      rw [if_neg (by omega), hcs]
    have hne0 : ¬ (c :: cs = ['0']) := by
      intro hx
      injection hx with _ hx2
      exact hcsne hx2
    rw [hds, parseDuration_mk_digit c cs hdig hne0, ← hcs,
      parseLoop_body d.natAbs hu1 hu2 _ (by omega)]
    show (if d.natAbs > 2 ^ 63 - 1 then none else some (d.natAbs : Int)) = some d
    rw [if_neg (by omega), Option.some_inj]
    omega

/-- **C9 counterexample.** `"10m"` is accepted by the duration parser
but the parsed value formats (marshals) as `"10m0s"`: the parse→format
round-trip does not return every accepted string unchanged. -/
theorem duration_roundtrip_counterexample :
    durationUnmarshalJSON "\"10m\"" = .ok 600000000000 ∧
      durationMarshalJSON 600000000000 = "\"10m0s\"" ∧
      "\"10m0s\"" ≠ "\"10m\"" :=
  ⟨by decide, by decide, by decide⟩

/-- **C9 (amended).** The parse→format round-trip returns the canonical
rendering of the parsed value, not necessarily the input text; it is
value-preserving in general: for every string the parser accepts,
re-parsing the formatted rendering yields the same duration value.
The exact-text round-trip holds only for canonical inputs: `"100ms"`
round-trips unchanged, while `"10m"` marshals to `"10m0s"` — a
different text denoting the same duration. -/
theorem duration_roundtrip_canonical :
    (∀ s d, parseDuration s = some d → parseDuration (durationString d) = some d) ∧
      durationUnmarshalJSON "\"100ms\"" = .ok 100000000 ∧
      durationMarshalJSON 100000000 = "\"100ms\"" ∧
      durationUnmarshalJSON "\"10m\"" = .ok 600000000000 ∧
      durationMarshalJSON 600000000000 = "\"10m0s\"" ∧
      durationUnmarshalJSON "\"10m0s\"" = .ok 600000000000 := by
  refine ⟨?_, by decide, by decide, by decide, by decide, by decide⟩
  intro s d h
  obtain ⟨hlo, hhi⟩ := parseDuration_range s d h
  exact parse_durationString d hlo hhi

/-- **C9 witness.** The general round-trip theorem applied to `"10m"`:
its value `600000000000` re-parses from its canonical rendering. -/
theorem duration_roundtrip_canonical_witness :
    parseDuration "10m" = some 600000000000 ∧
      parseDuration (durationString 600000000000) = some 600000000000 :=
  ⟨by decide, duration_roundtrip_canonical.1 "10m" 600000000000 (by decide)⟩

end Mysqlconnect
